import Mathlib

/-!
Verification of the feed normalization and validation engine of
`audit_flux_streamlit.py` / `audit_flux_streamlit_2.py`.

The Python code is shallowly embedded: strings are Lean `String`
(a list of characters), Python dicts that map attribute names to
values are association lists, a Python function that can raise an
uncaught exception is modelled as returning `Option` (with `none`
for the raising run).  Character classes (`\d`, `\s`, `[A-Z]`,
`str.isupper`, `str.strip`, `str.lower`) are modelled at their
ASCII meaning, which covers the data the feeds carry.
-/

namespace Audit

/-! ### Character classes (ASCII semantics of the Python ones) -/

/-- `\d` / `str.isdigit` on ASCII: `'0'..'9'`. -/
def isDig (c : Char) : Bool := 48 ≤ c.toNat && c.toNat ≤ 57

/-- `[A-Z]` / an ASCII uppercase cased character. -/
def isUp (c : Char) : Bool := 65 ≤ c.toNat && c.toNat ≤ 90

/-- an ASCII lowercase cased character. -/
def isLow (c : Char) : Bool := 97 ≤ c.toNat && c.toNat ≤ 122

/-- `\s` and the `str.strip` character set, ASCII part:
space, tab, newline, carriage return, vertical tab, form feed. -/
def isPySpaceChar (c : Char) : Bool :=
  c.toNat = 32 || c.toNat = 9 || c.toNat = 10 || c.toNat = 13 ||
  c.toNat = 11 || c.toNat = 12

/-- `str.strip()` on a character list: drop the whitespace run at
both ends. -/
def pyStripList (cs : List Char) : List Char :=
  ((cs.dropWhile isPySpaceChar).reverse.dropWhile isPySpaceChar).reverse

/-- `str.strip()`. -/
def pyStrip (s : String) : String := ⟨pyStripList s.data⟩

/-- `str.isupper()`: at least one cased character, and no cased
character is lowercase. -/
def pyIsUpper (s : String) : Bool :=
  (s.data.any fun c => isUp c || isLow c) && (s.data.all fun c => !isLow c)

/-- `str.lower()` (ASCII). -/
def pyLower (s : String) : String :=
  ⟨s.data.map fun c => if isUp c then Char.ofNat (c.toNat + 32) else c⟩

/-- whether `sub` occurs as a contiguous run in `hay`. -/
def listHasRun (sub : List Char) : List Char → Bool
  | [] => sub.isEmpty
  | c :: t => sub.isPrefixOf (c :: t) || listHasRun sub t

/-- substring membership `sub in s` of Python. -/
def pyIn (sub s : String) : Bool := listHasRun sub.data s.data

/-- `x or "MISSING"` on a string: replace the empty string by the
sentinel. -/
def pyOrMissing (s : String) : String := if s = "" then "MISSING" else s

/-! ### Decimal digit strings -/

/-- The decimal digit character of `d % 10`. -/
def digitChar (d : Nat) : Char :=
  match d with
  | 0 => '0' | 1 => '1' | 2 => '2' | 3 => '3' | 4 => '4'
  | 5 => '5' | 6 => '6' | 7 => '7' | 8 => '8' | _ => '9'

/-- Numeric value of a digit character. -/
def digitVal (c : Char) : Nat := c.toNat - 48

/-- Reads a big-endian digit string as a natural number (the value
`Decimal` gives a plain digit run). -/
def digitsToNat (cs : List Char) : Nat :=
  cs.foldl (fun a c => 10 * a + digitVal c) 0

/-- Big-endian decimal digits of `n` (`fuel`-bounded recursion;
`fuel ≥ n` makes it total). -/
def natStrAux : Nat → Nat → List Char
  | 0, _ => []
  | fuel + 1, n =>
    if n = 0 then [] else natStrAux fuel (n / 10) ++ [digitChar (n % 10)]

/-- Python's decimal rendering of a natural number. -/
def natStr (n : Nat) : List Char := if n = 0 then ['0'] else natStrAux n n

/-! ### Value normalizers (`normalize_price`, source lines 61-76) -/

/-- `$`-semantics of `re.match`: the match may stop at the end of
the string or just before one trailing newline. -/
def endOrNl (cs : List Char) : Bool := cs = [] || cs = ['\n']

/-- Tail `(?:\s*([A-Z]{3}))?$` of `_PRICE_RE` after the amount
group, returning the full match result. -/
def matchFeedPriceTail (amount rest : List Char) :
    Option (List Char × Option (List Char)) :=
  if endOrNl rest then some (amount, none)
  else
    match rest.dropWhile isPySpaceChar with
    | a :: b :: c :: r4 =>
      if isUp a && isUp b && isUp c && endOrNl r4 then
        some (amount, some [a, b, c])
      else none
    | _ => none

/-- `_PRICE_RE = ^(\d+[.,]?\d*)(?:\s*([A-Z]{3}))?$`, as the match
groups (amount, currency).  The regex is deterministic on its
alphabet (digits, separators, whitespace and uppercase letters are
pairwise disjoint), so greedy scanning reproduces the Python
backtracking match. -/
def matchFeedPrice (cs : List Char) :
    Option (List Char × Option (List Char)) :=
  if (cs.takeWhile isDig).isEmpty then none
  else
    match cs.dropWhile isDig with
    | [] => some (cs.takeWhile isDig, none)
    | c :: r2 =>
      if c = '.' || c = ',' then
        matchFeedPriceTail (cs.takeWhile isDig ++ c :: r2.takeWhile isDig)
          (r2.dropWhile isDig)
      else matchFeedPriceTail (cs.takeWhile isDig) (c :: r2)

/-- `Decimal(amount)` on an amount the price regex matched: digits
with one optional point, value `(n, k)` standing for `n / 10^k`. -/
def parseAmount (cs : List Char) : Option (Nat × Nat) :=
  match cs.dropWhile isDig with
  | [] =>
    if (cs.takeWhile isDig).isEmpty then none
    else some (digitsToNat (cs.takeWhile isDig), 0)
  | '.' :: r2 =>
    if r2.dropWhile isDig = [] &&
        !((cs.takeWhile isDig).isEmpty && (r2.takeWhile isDig).isEmpty) then
      some (digitsToNat (cs.takeWhile isDig ++ r2.takeWhile isDig),
        (r2.takeWhile isDig).length)
    else none
  | _ => none

/-- Division rounding half to even, as `Decimal`'s default
`ROUND_HALF_EVEN` context used by `f"{...:.2f}"`. -/
def halfEvenDiv (n d : Nat) : Nat :=
  let q := n / d
  let r := n % d
  if 2 * r < d then q
  else if d < 2 * r then q + 1
  else if q % 2 = 0 then q else q + 1

/-- The value `n / 10^k` rounded (half to even) to two fractional
digits and scaled by 100. -/
def scaleTo2 (n k : Nat) : Nat :=
  if k ≤ 2 then n * 10 ^ (2 - k) else halfEvenDiv n (10 ^ (k - 2))

/-- `f"{d:.2f}"` for the value `m / 100`. -/
def fmt2f (m : Nat) : List Char :=
  natStr (m / 100) ++ '.' :: [digitChar (m / 10 % 10), digitChar (m % 10)]

/-- `.rstrip("0").rstrip(".")`. -/
def pyRstripZeroDot (cs : List Char) : List Char :=
  ((cs.reverse.dropWhile (· = '0')).dropWhile (· = '.')).reverse

/-- `normalize_price` (both source files, identical): sentinel
passthrough, regex match, fixed-point rounding to two digits with
trailing zeros and point trimmed, currency defaulted to `EUR`. -/
def normalize_price (raw : String) : String :=
  if raw = "" || raw = "MISSING" then "MISSING"
  else
    match matchFeedPrice (pyStrip raw).data with
    | none => pyStrip raw
    | some (amount, currency) =>
      match parseAmount (amount.map fun ch => if ch = ',' then '.' else ch) with
      | none => pyStrip raw
      | some (n, k) =>
        pyStrip ⟨pyRstripZeroDot (fmt2f (scaleTo2 n k)) ++
          ' ' :: currency.getD "EUR".data⟩

/-! ### `normalize_gtin` (source lines 78-85) -/

/-- Outcome of `int(Decimal(raw))`: a finite integer, an exception
the caller catches (`InvalidOperation` on a malformed literal,
`ValueError` on NaN), or the uncaught `OverflowError` on an
infinity. -/
inductive DecOut where
  | fin (v : Int)
  | caught
  | overflow
deriving DecidableEq

/-- Magnitude of `n * 10^e / 10^k` truncated to an integer. -/
def truncMag (n k e : Nat) : Nat :=
  if k ≤ e then n * 10 ^ (e - k) else n / 10 ^ (k - e)

/-- Finite decimal literal `digits [. digits] [(e|E) [sign] digits]`
(at least one mantissa digit), truncated toward zero. -/
def parseDecFinite (cs : List Char) : Option Nat :=
  let d1 := cs.takeWhile isDig
  let r1 := cs.dropWhile isDig
  let mant : Option (Nat × Nat × List Char) :=
    match r1 with
    | '.' :: r2 =>
      if d1.isEmpty && (r2.takeWhile isDig).isEmpty then none
      else some (digitsToNat (d1 ++ r2.takeWhile isDig),
                 (r2.takeWhile isDig).length, r2.dropWhile isDig)
    | _ => if d1.isEmpty then none else some (digitsToNat d1, 0, r1)
  match mant with
  | none => none
  | some (n, k, rest) =>
    match rest with
    | [] => some (truncMag n k 0)
    | e :: r3 =>
      if e = 'e' || e = 'E' then
        let signedTail : Bool × List Char :=
          match r3 with
          | '+' :: r => (false, r)
          | '-' :: r => (true, r)
          | r => (false, r)
        if !signedTail.2.isEmpty && signedTail.2.all isDig then
          let ex := digitsToNat signedTail.2
          some (if signedTail.1 then truncMag n (k + ex) 0 else truncMag n k ex)
        else none
      else none

/-- `int(Decimal(s))`: whitespace is stripped, then underscores are
removed, an optional sign is read, and the rest is a finite numeric
literal, an infinity (`Inf`/`Infinity`, any case: `int` raises the
uncaught `OverflowError`), or anything else (NaN forms raise
`ValueError`, malformed literals `InvalidOperation`; both are
caught by `normalize_gtin`). -/
def pyDecimalInt (s : String) : DecOut :=
  let cs := (pyStripList s.data).filter (· ≠ '_')
  let neg := cs.head? = some '-'
  let body := match cs with
    | '+' :: r => r
    | '-' :: r => r
    | r => r
  let low := body.map fun c => if isUp c then Char.ofNat (c.toNat + 32) else c
  if low = "inf".data || low = "infinity".data then .overflow
  else
    match parseDecFinite body with
    | some v => .fin (if neg then -(v : Int) else (v : Int))
    | none => .caught

/-- Left pad with a character to a width. -/
def leftPad (c : Char) (w : Nat) (cs : List Char) : List Char :=
  List.replicate (w - cs.length) c ++ cs

/-- `f"{val:013d}"` (the sign counts toward the width). -/
def pad13 (v : Int) : String :=
  if v < 0 then ⟨'-' :: leftPad '0' 12 (natStr v.natAbs)⟩
  else ⟨leftPad '0' 13 (natStr v.toNat)⟩

/-- `normalize_gtin` (both source files, identical).  `none` models
the run on which `int(Decimal(raw))` raises the `OverflowError`
that the `except (InvalidOperation, ValueError)` clause does not
catch. -/
def normalize_gtin (raw : String) : Option String :=
  if raw = "" || raw = "MISSING" then some "MISSING"
  else
    match pyDecimalInt raw with
    | .fin v => some (pad13 v)
    | .caught => some raw
    | .overflow => none

/-! ### Validation regexes (source lines 62 and 264) -/

/-- `[A-Z]{3}$`: exactly three uppercase letters, then the end (or
one trailing newline, which `$` also accepts). -/
def priceValidCore (r : List Char) : Bool :=
  match r with
  | [a, b, c] => isUp a && isUp b && isUp c
  | [a, b, c, n] => isUp a && isUp b && isUp c && n = '\n'
  | _ => false

/-- Tail `\s?[A-Z]{3}$` of `_PRICE_VALID_RE`: an optional single
whitespace character, then the three uppercase letters. -/
def priceValidTail (rest : List Char) : Bool :=
  match rest with
  | c :: tl => if isPySpaceChar c then priceValidCore tl else priceValidCore (c :: tl)
  | [] => false

/-- `_PRICE_VALID_RE = ^\d+(?:\.\d{1,2})?\s?[A-Z]{3}$`.  The regex
is deterministic on its alphabet, so greedy scanning reproduces the
Python match. -/
def matchPriceValid (cs : List Char) : Bool :=
  if (cs.takeWhile isDig).isEmpty then false
  else
    match cs.dropWhile isDig with
    | '.' :: r2 =>
      if (r2.takeWhile isDig).length = 1 || (r2.takeWhile isDig).length = 2 then
        priceValidTail (r2.dropWhile isDig)
      else false
    | r1 => priceValidTail r1

/-- `_DIMENSION_RE = ^\d+(?:[.,]\d+)?\s?(?:mm|cm|in|kg|g)?$` with
`re.I`: a digit run, an optional fractional part, an optional
single whitespace character and an optional case-insensitive unit. -/
def matchDimension (cs : List Char) : Bool :=
  let d1 := cs.takeWhile isDig
  if d1.isEmpty then false
  else
    let afterNum : Option (List Char) :=
      match cs.dropWhile isDig with
      | c :: r2 =>
        if c = '.' || c = ',' then
          if (r2.takeWhile isDig).isEmpty then none
          else some (r2.dropWhile isDig)
        else some (c :: r2)
      | [] => some []
    match afterNum with
    | none => false
    | some rest =>
      let rest' := match rest with
        | c :: tl => if isPySpaceChar c then tl else rest
        | [] => []
      let low := rest'.map fun c => if isUp c then Char.ofNat (c.toNat + 32) else c
      endOrNl low ||
        (["mm".data, "cm".data, "in".data, "kg".data, ['g']].any fun u =>
          low = u || low = u ++ ['\n'])

/-! ### Canonical products and the validator (source lines 266-315)

A canonical product always carries all 44 canonical attribute keys
(`_PRODUCT_ATTRS`); the validator reads them by name, so it is
embedded over a record with one string field per attribute,
defaulting to the `MISSING` sentinel. -/

structure Product where
  id : String := "MISSING"
  title : String := "MISSING"
  link : String := "MISSING"
  image_link : String := "MISSING"
  price : String := "MISSING"
  sale_price : String := "MISSING"
  description : String := "MISSING"
  availability : String := "MISSING"
  condition : String := "MISSING"
  brand : String := "MISSING"
  gtin : String := "MISSING"
  mpn : String := "MISSING"
  color : String := "MISSING"
  size : String := "MISSING"
  age_group : String := "MISSING"
  gender : String := "MISSING"
  item_group_id : String := "MISSING"
  google_product_category : String := "MISSING"
  certification_authority : String := "MISSING"
  certification_name : String := "MISSING"
  certification_code : String := "MISSING"
  product_length : String := "MISSING"
  product_width : String := "MISSING"
  product_height : String := "MISSING"
  product_weight : String := "MISSING"
  shipping_length : String := "MISSING"
  shipping_width : String := "MISSING"
  shipping_height : String := "MISSING"
  shipping : String := "MISSING"
  shipping_weight : String := "MISSING"
  pattern : String := "MISSING"
  material : String := "MISSING"
  additional_image_link : String := "MISSING"
  size_type : String := "MISSING"
  size_system : String := "MISSING"
  canonical_link : String := "MISSING"
  expiration_date : String := "MISSING"
  sale_price_effective_date : String := "MISSING"
  product_highlight : String := "MISSING"
  ships_from_country : String := "MISSING"
  minimum_handling_time : String := "MISSING"
  max_handling_time : String := "MISSING"
  availability_date : String := "MISSING"
  product_detail : String := "MISSING"
deriving DecidableEq

/-- One validation outcome column per rule (`_VALIDATION_ATTRS`),
each holding `"OK"` or `"Erreur"`. -/
structure Flags where
  duplicate_id : String
  invalid_or_missing_price : String
  null_price : String
  missing_title : String
  description_missing_or_short : String
  invalid_availability : String
  missing_or_empty_color : String
  missing_or_empty_gender : String
  missing_or_empty_size : String
  missing_or_empty_age_group : String
  missing_or_empty_image_link : String
  missing_certification : String
  missing_dimensions_weight : String
  invalid_dimension_format : String
  missing_google_product_category : String
  missing_minimum_handling_time : String
deriving DecidableEq

/-- The `missing` helper of `validate_products`: the value is the
empty string or the sentinel. -/
def pmissing (v : String) : Bool := v = "" || v = "MISSING"

/-- `"Erreur" if b else "OK"`. -/
def errFlag (b : Bool) : String := if b then "Erreur" else "OK"

/-- `str.startswith("0")`. -/
def startsWithZero (s : String) : Bool :=
  match s.data with
  | c :: _ => c = '0'
  | [] => false

/-- The rule evaluation of one loop iteration of `validate_products`
(source lines 270-312), over the duplicate-id set seen so far. -/
def validateOne (seen : List String) (p : Product) : Flags :=
  let dims_invalid :=
    ([p.product_length, p.product_width, p.product_height,
      p.shipping_length, p.shipping_width, p.shipping_height,
      p.product_weight].filter fun v => !pmissing v).any
      fun v => !matchDimension v.data
  { duplicate_id := errFlag (p.id ∈ seen)
    invalid_or_missing_price :=
      errFlag (p.price = "MISSING" || !matchPriceValid p.price.data)
    null_price := errFlag (startsWithZero p.price)
    missing_title := errFlag (p.title = "MISSING")
    description_missing_or_short := errFlag (p.description.length < 20)
    invalid_availability := errFlag (p.availability = "MISSING")
    missing_or_empty_color := errFlag (pmissing p.color)
    missing_or_empty_gender := errFlag (pmissing p.gender)
    missing_or_empty_size := errFlag (pmissing p.size)
    missing_or_empty_age_group := errFlag (pmissing p.age_group)
    missing_or_empty_image_link := errFlag (pmissing p.image_link)
    missing_certification :=
      errFlag (pmissing p.certification_authority ||
        pmissing p.certification_name || pmissing p.certification_code)
    missing_dimensions_weight :=
      errFlag (pmissing p.product_length || pmissing p.product_width ||
        pmissing p.product_height || pmissing p.product_weight ||
        pmissing p.shipping_length || pmissing p.shipping_width ||
        pmissing p.shipping_height)
    invalid_dimension_format := errFlag dims_invalid
    missing_google_product_category :=
      errFlag (pmissing p.google_product_category)
    missing_minimum_handling_time :=
      errFlag (pmissing p.minimum_handling_time) }

/-- A validated product: the original record plus its flags
(`{**prod, **errors}`). -/
structure VProd where
  prod : Product
  flags : Flags
deriving DecidableEq

/-- The loop of `validate_products`, carrying the `seen_ids` set
(modelled as a duplicate-free list updated by `List.insert`). -/
def validateGo (seen : List String) : List Product → List VProd
  | [] => []
  | p :: rest => ⟨p, validateOne seen p⟩ :: validateGo (seen.insert p.id) rest

/-- `validate_products` (source lines 266-315): the `seen_ids` set
starts empty. -/
def validate_products (ps : List Product) : List VProd := validateGo [] ps

/-- The all-`MISSING` record (the initialization the text extractor
uses), also the default for positional access. -/
def defaultP : Product := {}

/-- Default element for positional access into validated batches. -/
def defaultVP : VProd :=
  ⟨defaultP, validateOne [] defaultP⟩

/-! ### Python dicts as association lists -/

/-- A Python dict of strings: an association list whose keys are
kept unique by the update operations. -/
abbrev Dict := List (String × String)

/-- `d[key]` lookup (`d.get(key)`). -/
def dget : Dict → String → Option String
  | [], _ => none
  | (k, v) :: d, key => if key = k then some v else dget d key

/-- `d[key] = val`: replace in place when present, append when new. -/
def dset : Dict → String → String → Dict
  | [], key, val => [(key, val)]
  | (k, v) :: d, key, val =>
    if k = key then (k, val) :: d else (k, v) :: dset d key val

/-- `d.setdefault(key, val)`. -/
def dsetdefault (d : Dict) (key val : String) : Dict :=
  if (dget d key).isSome then d else d ++ [(key, val)]

/-- `_PRODUCT_ATTRS` (source lines 322-337): the 44 canonical
attribute keys, in the export column order. -/
def _PRODUCT_ATTRS : List String :=
  ["id", "title", "link", "image_link", "price", "sale_price",
   "description", "availability", "condition", "brand",
   "gtin", "mpn", "color", "size", "age_group", "gender",
   "item_group_id", "google_product_category",
   "certification_authority", "certification_name", "certification_code",
   "product_length", "product_width", "product_height", "product_weight",
   "shipping_length", "shipping_width", "shipping_height",
   "shipping", "shipping_weight", "pattern", "material",
   "additional_image_link", "size_type", "size_system", "canonical_link",
   "expiration_date", "sale_price_effective_date", "product_highlight",
   "ships_from_country", "minimum_handling_time", "max_handling_time",
   "availability_date", "product_detail"]

/-! ### Merchant (Google) extractor (source lines 102-174)

An `<item>` element is abstracted by the reads the extractor
performs on it: `findtext` of a Google-namespaced tag, `findtext`
of the same tag without namespace, and the `itertext` runs of the
`<g:shipping>` element and of each `<g:product_detail>` element. -/

structure GItem where
  gfind : String → Option String
  plainfind : String → Option String
  shippingItertext : Option (List String)
  productDetailItertexts : List (List String)

/-- Python `a or b or ""` over two `findtext` results (which are
`None` or a string; `None` and `""` are falsy). -/
def pyOr2 (a b : Option String) : String :=
  match a with
  | some s => if s = "" then b.getD "" else s
  | none => b.getD ""

/-- The `g` helper of `_parse_google_item`: namespaced text,
stripped, empty replaced by the sentinel. -/
def gVal (it : GItem) (tag : String) : String :=
  pyOrMissing (pyStrip ((it.gfind tag).getD ""))

/-- The `g_or_plain` helper (source lines 107-114): the namespaced
text, falling back to the plain sibling tag when the namespaced one
is absent or empty. -/
def g_or_plain (it : GItem) (tag : String) : String :=
  pyOrMissing (pyStrip (pyOr2 (it.gfind tag) (it.plainfind tag)))

/-- The `shipping` block (source lines 117-118): flattened
`itertext` of the `<g:shipping>` element, stripped. -/
def googleShippingBlock (it : GItem) : String :=
  match it.shippingItertext with
  | some pieces => pyStrip (String.join pieces)
  | none => "MISSING"

/-- The possibly-multiple `product_detail` elements (source lines
121-125), concatenated with a pipe separator. -/
def googleProductDetail (it : GItem) : String :=
  match it.productDetailItertexts with
  | [] => gVal it "product_detail"
  | pds => pyOrMissing (pyStrip (" | ".intercalate
      (pds.map fun pd => pyStrip (" ".intercalate pd))))

/-- `_parse_google_item`.  `none` models the run on which
`normalize_gtin` raises. -/
def _parse_google_item (it : GItem) : Option Dict :=
  match normalize_gtin (gVal it "gtin") with
  | none => none
  | some gt => some
    [("id", gVal it "id"),
     ("title", g_or_plain it "title"),
     ("description", g_or_plain it "description"),
     ("link", g_or_plain it "link"),
     ("image_link", gVal it "image_link"),
     ("price", normalize_price (gVal it "price")),
     ("sale_price", normalize_price (gVal it "sale_price")),
     ("availability", gVal it "availability"),
     ("condition", gVal it "condition"),
     ("brand", gVal it "brand"),
     ("gtin", gt),
     ("mpn", gVal it "mpn"),
     ("color", gVal it "color"),
     ("size", gVal it "size"),
     ("age_group", gVal it "age_group"),
     ("gender", gVal it "gender"),
     ("item_group_id", gVal it "item_group_id"),
     ("certification_authority", gVal it "certification_authority"),
     ("certification_name", gVal it "certification_name"),
     ("certification_code", gVal it "certification_code"),
     ("product_length", gVal it "product_length"),
     ("product_width", gVal it "product_width"),
     ("product_height", gVal it "product_height"),
     ("product_weight", gVal it "product_weight"),
     ("shipping_length", gVal it "shipping_length"),
     ("shipping_width", gVal it "shipping_width"),
     ("shipping_height", gVal it "shipping_height"),
     ("shipping", googleShippingBlock it),
     ("shipping_weight", gVal it "shipping_weight"),
     ("pattern", gVal it "pattern"),
     ("material", gVal it "material"),
     ("additional_image_link", gVal it "additional_image_link"),
     ("size_type", gVal it "size_type"),
     ("size_system", gVal it "size_system"),
     ("canonical_link", gVal it "canonical_link"),
     ("expiration_date", gVal it "expiration_date"),
     ("sale_price_effective_date", gVal it "sale_price_effective_date"),
     ("product_highlight", gVal it "product_highlight"),
     ("ships_from_country", gVal it "ships_from_country"),
     ("minimum_handling_time", gVal it "minimum_handling_time"),
     ("max_handling_time", gVal it "max_handling_time"),
     ("availability_date", gVal it "availability_date"),
     ("product_detail", googleProductDetail it),
     ("google_product_category", g_or_plain it "google_product_category")]

/-! ### French extractor (source lines 178-258) -/

/-- A `<Sheet1>` element, abstracted by its `findtext` reads. -/
structure FItem where
  findtext : String → Option String

/-- `FR_TO_EN_MAPPING` in source (insertion) order. -/
def FR_TO_EN_MAPPING : List (String × String) :=
  [("titre", "title"),
   ("identifiant", "id"),
   ("prix", "price"),
   ("prixsoldé", "sale_price"),
   ("prixsolde", "sale_price"),
   ("état", "condition"),
   ("etat", "condition"),
   ("disponibilité", "availability"),
   ("disponibilite", "availability"),
   ("lien", "link"),
   ("lienimage", "image_link"),
   ("couleur", "color"),
   ("taille", "size"),
   ("tranche_age", "age_group"),
   ("genre", "gender"),
   ("marque", "brand"),
   ("catégoriedeproduitsgoogle", "google_product_category"),
   ("categoriedeproduitsgoogle", "google_product_category"),
   ("longueur_produit", "product_length"),
   ("largeur_produit", "product_width"),
   ("hauteur_produit", "product_height"),
   ("poids_produit", "product_weight"),
   ("longueur_colis", "shipping_length"),
   ("largeur_colis", "shipping_width"),
   ("hauteur_colis", "shipping_height"),
   ("poids_expedition", "shipping_weight"),
   ("autorité_certification", "certification_authority"),
   ("autorite_certification", "certification_authority"),
   ("nom_certification", "certification_name"),
   ("code_certification", "certification_code"),
   ("delai_traitement_minimum", "minimum_handling_time"),
   ("delai_traitement_maximum", "max_handling_time")]

/-- The `direct_tags` list of `_parse_french_item`. -/
def frenchDirectTags : List String :=
  ["gtin", "description", "shipping", "item_group_id", "mpn",
   "pattern", "material", "additional_image_link", "size_type",
   "size_system", "canonical_link", "expiration_date",
   "sale_price_effective_date", "product_highlight",
   "ships_from_country", "minimum_handling_time", "max_handling_time",
   "availability_date", "product_detail",
   "google_product_category"]

/-- Step 1 of `_parse_french_item`: the FR -> EN tag mapping
(nonempty stripped values only). -/
def frenchMapped (it : FItem) : Dict :=
  FR_TO_EN_MAPPING.foldl (fun acc kv =>
    if pyStrip ((it.findtext kv.1).getD "") ≠ "" then
      dset acc kv.2 (pyStrip ((it.findtext kv.1).getD ""))
    else acc) []

/-- Step 2: tags already canonical. -/
def frenchDirect (it : FItem) (d : Dict) : Dict :=
  frenchDirectTags.foldl (fun acc tag =>
    if pyStrip ((it.findtext tag).getD "") ≠ "" then
      dset acc tag (pyStrip ((it.findtext tag).getD ""))
    else acc) d

/-- Step 3: concatenated certification fallback. -/
def frenchCert (it : FItem) (d : Dict) : Dict :=
  if pyStrip ((it.findtext
      "certificationcertificationauthoritycertificationcodecertificationname").getD
      "") ≠ "" then
    if ((pyStrip ((it.findtext
        "certificationcertificationauthoritycertificationcodecertificationname").getD
        "")).splitOn ":").length = 3 then
      dset (dset (dset d
        "certification_authority" (((pyStrip ((it.findtext
          "certificationcertificationauthoritycertificationcodecertificationname").getD
          "")).splitOn ":").getD 0 ""))
        "certification_code" (((pyStrip ((it.findtext
          "certificationcertificationauthoritycertificationcodecertificationname").getD
          "")).splitOn ":").getD 1 ""))
        "certification_name" (((pyStrip ((it.findtext
          "certificationcertificationauthoritycertificationcodecertificationname").getD
          "")).splitOn ":").getD 2 "")
    else dset d "certification_authority" (pyStrip ((it.findtext
      "certificationcertificationauthoritycertificationcodecertificationname").getD
      ""))
  else d

/-- Steps 1-4 of `_parse_french_item` before the gtin
normalization: mapping, direct tags, certification fallback and
the two price normalizations. -/
def frenchNormalized (it : FItem) : Dict :=
  dset
    (dset (frenchCert it (frenchDirect it (frenchMapped it)))
      "price" (normalize_price
        ((dget (frenchCert it (frenchDirect it (frenchMapped it)))
          "price").getD "MISSING")))
    "sale_price" (normalize_price
      ((dget (dset (frenchCert it (frenchDirect it (frenchMapped it)))
        "price" (normalize_price
          ((dget (frenchCert it (frenchDirect it (frenchMapped it)))
            "price").getD "MISSING"))) "sale_price").getD "MISSING"))

/-- `_parse_french_item`.  `none` models the run on which
`normalize_gtin` raises; every canonical key is defaulted to the
sentinel at the end. -/
def _parse_french_item (it : FItem) : Option Dict :=
  match normalize_gtin ((dget (frenchNormalized it) "gtin").getD "MISSING") with
  | none => none
  | some gt =>
    some (_PRODUCT_ATTRS.foldl (fun acc k => dsetdefault acc k "MISSING")
      (dset (frenchNormalized it) "gtin" gt))

/-! ### Text (pipe-delimited) extractor (source lines 82-149) -/

/-- `str.splitlines()` restricted to `\n`, `\r\n` and `\r`. -/
def splitlinesAux : List Char → List Char → List (List Char)
  | cur, [] => if cur.isEmpty then [] else [cur]
  | cur, '\r' :: '\n' :: rest => cur :: splitlinesAux [] rest
  | cur, '\r' :: rest => cur :: splitlinesAux [] rest
  | cur, '\n' :: rest => cur :: splitlinesAux [] rest
  | cur, c :: rest => splitlinesAux (cur ++ [c]) rest

/-- `str.splitlines()` (note: a terminal line break opens no empty
final line; an empty string has no lines). -/
def pySplitlines (s : String) : List String :=
  (splitlinesAux [] s.data).map fun cs => ⟨cs⟩

/-- `str.startswith("#")`. -/
def startsWithHash (s : String) : Bool :=
  match s.data with
  | '#' :: _ => true
  | [] => false
  | _ => false

/-- `ln.split("|")` (structural, so terms evaluate by kernel
reduction): split on every pipe, keeping empty pieces. -/
def splitPipeAux (cur : List Char) : List Char → List String
  | [] => [⟨cur⟩]
  | '|' :: rest => ⟨cur⟩ :: splitPipeAux [] rest
  | c :: rest => splitPipeAux (cur ++ [c]) rest

def splitPipe (ln : String) : List String := splitPipeAux [] ln.data

/-- The `get(i)` helper of `parse_txt`: the stripped `i`-th field,
or the empty string past the end. -/
def fget (fields : List String) (i : Nat) : String :=
  pyStrip (fields.getD i "")

/-- The `{key: "MISSING" for key in _PRODUCT_ATTRS}` initializer. -/
def txtInit : Dict := _PRODUCT_ATTRS.map fun k => (k, "MISSING")

/-- The fixed positional assignments of `parse_txt` (source lines
102-120), given the already-normalized gtin value. -/
def txtFixed (fields : List String) (gt : String) : Dict :=
  dset (dset (dset (dset (dset (dset (dset (dset (dset (dset (dset
    (dset (dset (dset (dset (dset (dset (dset (dset txtInit
    "id" (pyOrMissing (fget fields 0)))
    "title" (pyOrMissing (fget fields 1)))
    "link" (pyOrMissing (fget fields 2)))
    "price" (normalize_price (pyOrMissing (fget fields 3))))
    "description" (pyOrMissing (fget fields 4)))
    "condition" (pyOrMissing (fget fields 5)))
    "gtin" gt)
    "color" (pyOrMissing (fget fields 7)))
    "mpn" (pyOrMissing (fget fields 8)))
    "image_link" (pyOrMissing (fget fields 9)))
    "availability" (pyOrMissing (fget fields 11)))
    "shipping" (pyOrMissing (fget fields 12)))
    "shipping_weight" (pyOrMissing (fget fields 13)))
    "google_product_category" (pyOrMissing (fget fields 14)))
    "item_group_id" (pyOrMissing (fget fields 16)))
    "gender" (pyOrMissing (fget fields 17)))
    "age_group" (pyOrMissing (fget fields 18)))
    "pattern" (pyOrMissing (fget fields 19)))
    "size" (pyOrMissing (fget fields 20))

/-- The brand fallback (source lines 124-126): field 21, unless
falsy or a null-ish marker. -/
def txtBrand (fields : List String) (p : Dict) : Dict :=
  if fget fields 21 ≠ "" &&
      !(pyLower (fget fields 21) = "0" || pyLower (fget fields 21) = "na" ||
        pyLower (fget fields 21) = "null")
    then dset p "brand" (fget fields 21) else p

/-- The `additional_image_link` heuristic (source lines 129-134):
first field past offset 21 containing both `http` and a comma. -/
def txtAddImg (fields : List String) (p : Dict) : Dict :=
  if dget p "additional_image_link" = some "MISSING" then
    match (fields.drop 22).find? (fun f =>
      pyIn "http" (pyStrip f) && pyIn "," (pyStrip f)) with
    | some f => dset p "additional_image_link" (pyStrip f)
    | none => p
  else p

/-- Field extraction of one line's fields through the
`additional_image_link` scan (source lines 91-134).  `none` models
the run on which `normalize_gtin` raises. -/
def txtBase (fields : List String) : Option Dict :=
  match normalize_gtin (pyOrMissing (fget fields 6)) with
  | none => none
  | some gt => some (txtAddImg fields (txtBrand fields (txtFixed fields gt)))

/-- The `ships_from_country` criterion: stripped length 2 or 3 and
Python `isupper`. -/
def shipsPred (f : String) : Bool :=
  ((pyStrip f).length = 2 || (pyStrip f).length = 3) && pyIsUpper (pyStrip f)

/-- The `ships_from_country` heuristic (source lines 137-141): first
matching field scanning from the end of the line. -/
def txtShips (fields : List String) (p : Dict) : Dict :=
  match fields.reverse.find? shipsPred with
  | some f => dset p "ships_from_country" (pyStrip f)
  | none => p

/-- Final re-normalization of `gtin` (source line 145). -/
def txtRegtin (p : Dict) : Option Dict :=
  match normalize_gtin ((dget p "gtin").getD "MISSING") with
  | none => none
  | some g2 => some (dset p "gtin" g2)

/-- Final re-normalization of `price` and `gtin` (source lines
144-145). -/
def txtFinish (p : Dict) : Option Dict :=
  txtRegtin (dset p "price" (normalize_price ((dget p "price").getD "MISSING")))

/-- The body of the per-line loop of `parse_txt`. -/
def parseTxtLine (ln : String) : Option Dict :=
  (txtBase (splitPipe ln)).bind fun p => txtFinish (txtShips (splitPipe ln) p)

/-- `parse_txt` over the decoded text: keep the stripped, non-empty,
non-comment lines and extract each.  `none` models the run on which
some line raises. -/
def parse_txt (content : String) : Option (List Dict) :=
  (((pySplitlines content).map pyStrip).filter fun l =>
    l ≠ "" && !startsWithHash l).mapM parseTxtLine

/-! ### Report aggregator (`generate_excel`, source lines 400-453)

Only the per-attribute completeness computation carries logic; the
workbook writing around it is I/O.  A validated row is the merged
dict `{**prod, **errors}`, read back by key. -/

/-- `p.get(col)` on a validated row: the 44 product attributes, the
16 validation columns, `None` for any other key. -/
def vGet (v : VProd) (attr : String) : Option String :=
  match attr with
  | "id" => some v.prod.id
  | "title" => some v.prod.title
  | "link" => some v.prod.link
  | "image_link" => some v.prod.image_link
  | "price" => some v.prod.price
  | "sale_price" => some v.prod.sale_price
  | "description" => some v.prod.description
  | "availability" => some v.prod.availability
  | "condition" => some v.prod.condition
  | "brand" => some v.prod.brand
  | "gtin" => some v.prod.gtin
  | "mpn" => some v.prod.mpn
  | "color" => some v.prod.color
  | "size" => some v.prod.size
  | "age_group" => some v.prod.age_group
  | "gender" => some v.prod.gender
  | "item_group_id" => some v.prod.item_group_id
  | "google_product_category" => some v.prod.google_product_category
  | "certification_authority" => some v.prod.certification_authority
  | "certification_name" => some v.prod.certification_name
  | "certification_code" => some v.prod.certification_code
  | "product_length" => some v.prod.product_length
  | "product_width" => some v.prod.product_width
  | "product_height" => some v.prod.product_height
  | "product_weight" => some v.prod.product_weight
  | "shipping_length" => some v.prod.shipping_length
  | "shipping_width" => some v.prod.shipping_width
  | "shipping_height" => some v.prod.shipping_height
  | "shipping" => some v.prod.shipping
  | "shipping_weight" => some v.prod.shipping_weight
  | "pattern" => some v.prod.pattern
  | "material" => some v.prod.material
  | "additional_image_link" => some v.prod.additional_image_link
  | "size_type" => some v.prod.size_type
  | "size_system" => some v.prod.size_system
  | "canonical_link" => some v.prod.canonical_link
  | "expiration_date" => some v.prod.expiration_date
  | "sale_price_effective_date" => some v.prod.sale_price_effective_date
  | "product_highlight" => some v.prod.product_highlight
  | "ships_from_country" => some v.prod.ships_from_country
  | "minimum_handling_time" => some v.prod.minimum_handling_time
  | "max_handling_time" => some v.prod.max_handling_time
  | "availability_date" => some v.prod.availability_date
  | "product_detail" => some v.prod.product_detail
  | "duplicate_id" => some v.flags.duplicate_id
  | "invalid_or_missing_price" => some v.flags.invalid_or_missing_price
  | "null_price" => some v.flags.null_price
  | "missing_title" => some v.flags.missing_title
  | "description_missing_or_short" => some v.flags.description_missing_or_short
  | "invalid_availability" => some v.flags.invalid_availability
  | "missing_or_empty_color" => some v.flags.missing_or_empty_color
  | "missing_or_empty_gender" => some v.flags.missing_or_empty_gender
  | "missing_or_empty_size" => some v.flags.missing_or_empty_size
  | "missing_or_empty_age_group" => some v.flags.missing_or_empty_age_group
  | "missing_or_empty_image_link" => some v.flags.missing_or_empty_image_link
  | "missing_certification" => some v.flags.missing_certification
  | "missing_dimensions_weight" => some v.flags.missing_dimensions_weight
  | "invalid_dimension_format" => some v.flags.invalid_dimension_format
  | "missing_google_product_category" =>
      some v.flags.missing_google_product_category
  | "missing_minimum_handling_time" =>
      some v.flags.missing_minimum_handling_time
  | _ => none

/-- `total = len(data) or 1`: the divisor, 1 on an empty batch. -/
def excelTotal (data : List VProd) : Nat :=
  if data.length = 0 then 1 else data.length

/-- `missing = sum(1 for p in data if p.get(attr) in ("", "MISSING"))`. -/
def excelMissing (data : List VProd) (attr : String) : Nat :=
  (data.filter fun p => vGet p attr = some "" || vGet p attr = some "MISSING").length

/-- `missing_pct = (missing / total) * 100` (exact rational value of
the float the code computes). -/
def excelMissingPct (data : List VProd) (attr : String) : ℚ :=
  (excelMissing data attr : ℚ) / (excelTotal data : ℚ) * 100

/-! ### Spec-side definitions

These follow the words of the specification (not the code) and are
only used to compare spec statements with the embedded code. -/

/-- The price-validity pattern exactly as the specification words
it: one or more digits, an optional `.` followed by 1-2 decimal
digits, exactly one space, and exactly 3 uppercase letters. -/
def SpecPricePattern (s : String) : Prop :=
  ∃ ds fr cur : List Char,
    s.data = ds ++ fr ++ ' ' :: cur ∧
    ds ≠ [] ∧ (∀ c ∈ ds, isDig c) ∧
    (fr = [] ∨ ∃ fds, fr = '.' :: fds ∧ (∀ c ∈ fds, isDig c) ∧
      (fds.length = 1 ∨ fds.length = 2)) ∧
    cur.length = 3 ∧ (∀ c ∈ cur, isUp c)

/-- The price-validity pattern the code actually checks, stated
structurally: as the spec's pattern, but the separating whitespace
character is optional (and `$` admits one trailing newline). -/
def AmendedPricePattern (s : String) : Prop :=
  ∃ ds fr sp cur nl : List Char,
    s.data = ds ++ fr ++ sp ++ cur ++ nl ∧
    ds ≠ [] ∧ (∀ c ∈ ds, isDig c) ∧
    (fr = [] ∨ ∃ fds, fr = '.' :: fds ∧ (∀ c ∈ fds, isDig c) ∧
      (fds.length = 1 ∨ fds.length = 2)) ∧
    (sp = [] ∨ ∃ w, sp = [w] ∧ isPySpaceChar w) ∧
    cur.length = 3 ∧ (∀ c ∈ cur, isUp c) ∧
    (nl = [] ∨ nl = ['\n'])

/-- "consists entirely of uppercase letters", as the specification
words the `ships_from_country` criterion. -/
def SpecUpperLetters (s : String) : Bool :=
  (s.length = 2 || s.length = 3) && s.data.all isUp

/-! ## Theorems -/

/-! ### Generic lemmas about the validator loop -/

theorem errFlag_eq (b : Bool) : errFlag b = "Erreur" ↔ b = true := by
  cases b <;> simp [errFlag]

theorem validateGo_flags (seen : List String) (ps : List Product) (i : Nat)
    (h : i < ps.length) :
    ∃ s, (validateGo seen ps).getD i defaultVP =
      ⟨ps.getD i defaultP, validateOne s (ps.getD i defaultP)⟩ := by
  induction ps generalizing seen i with
  | nil => simp at h
  | cons p rest ih =>
    cases i with
    | zero => exact ⟨seen, rfl⟩
    | succ i =>
      have h' : i < rest.length := by simpa using h
      simpa [validateGo] using ih (seen.insert p.id) i h'

theorem validate_products_flags (ps : List Product) (i : Nat)
    (h : i < ps.length) :
    ∃ s, (validate_products ps).getD i defaultVP =
      ⟨ps.getD i defaultP, validateOne s (ps.getD i defaultP)⟩ :=
  validateGo_flags [] ps i h

theorem validateGo_dup (seen : List String) (ps : List Product) (i : Nat)
    (h : i < ps.length) :
    (((validateGo seen ps).getD i defaultVP).flags.duplicate_id = "Erreur" ↔
      ((ps.getD i defaultP).id ∈ seen ∨
        ∃ j, j < i ∧ (ps.getD j defaultP).id = (ps.getD i defaultP).id)) := by
  induction ps generalizing seen i with
  | nil => simp at h
  | cons p rest ih =>
    cases i with
    | zero =>
      simp only [validateGo, List.getD_cons_zero, validateOne, errFlag_eq]
      simp
    | succ i =>
      have h' : i < rest.length := by simpa using h
      have := ih (seen.insert p.id) i h'
      simp only [validateGo, List.getD_cons_succ] at this ⊢
      rw [this, List.mem_insert_iff]
      constructor
      · rintro ((h1 | h1) | ⟨j, hj, he⟩)
        · exact Or.inr ⟨0, by omega, h1.symm⟩
        · exact Or.inl h1
        · exact Or.inr ⟨j + 1, by omega, by simpa using he⟩
      · rintro (h1 | ⟨j, hj, he⟩)
        · exact Or.inl (Or.inr h1)
        · cases j with
          | zero => exact Or.inl (Or.inl (by simpa using he.symm))
          | succ j => exact Or.inr ⟨j, by omega, by simpa using he⟩

/-! ### C3 and C10: duplicate-id detection -/

/-- C3: in a validated batch, `duplicate_id` is `Erreur` exactly
when the product's id already occurred at an earlier position of
the input list (so the first occurrence of each id is `OK` and
every later occurrence is `Erreur`, whatever the number of
repetitions). -/
theorem c3_duplicate_id_iff (ps : List Product) (i : Nat) (h : i < ps.length) :
    (((validate_products ps).getD i defaultVP).flags.duplicate_id = "Erreur" ↔
      ∃ j, j < i ∧ (ps.getD j defaultP).id = (ps.getD i defaultP).id) := by
  have := validateGo_dup [] ps i h
  simpa [validate_products] using this

/-- Witness for C3 on the spec's example ids `[A, A, B, A]`: the
flags come out `[OK, Erreur, OK, Erreur]`. -/
theorem c3_duplicate_id_iff_witness :
    (((validate_products [{id := "A"}, {id := "A"}, {id := "B"}, {id := "A"}]).getD 0
        defaultVP).flags.duplicate_id ≠ "Erreur") ∧
    (((validate_products [{id := "A"}, {id := "A"}, {id := "B"}, {id := "A"}]).getD 1
        defaultVP).flags.duplicate_id = "Erreur") ∧
    (((validate_products [{id := "A"}, {id := "A"}, {id := "B"}, {id := "A"}]).getD 2
        defaultVP).flags.duplicate_id ≠ "Erreur") ∧
    (((validate_products [{id := "A"}, {id := "A"}, {id := "B"}, {id := "A"}]).getD 3
        defaultVP).flags.duplicate_id = "Erreur") := by
  refine ⟨fun hc => ?_, ?_, fun hc => ?_, ?_⟩
  · obtain ⟨j, hj, _⟩ := (c3_duplicate_id_iff _ 0 (by norm_num)).mp hc
    omega
  · exact (c3_duplicate_id_iff _ 1 (by norm_num)).mpr ⟨0, by omega, rfl⟩
  · obtain ⟨j, hj, he⟩ := (c3_duplicate_id_iff _ 2 (by norm_num)).mp hc
    interval_cases j <;> exact absurd he (by decide)
  · exact (c3_duplicate_id_iff _ 3 (by norm_num)).mpr ⟨0, by omega, rfl⟩

/-- C10: the sentinel id `MISSING` takes part in duplicate
detection like a real id: any product whose id is `MISSING` and
which is preceded by another `MISSING`-id product is flagged
`duplicate_id = Erreur`. -/
theorem c10_missing_id_duplicates (ps : List Product) (i : Nat)
    (h : i < ps.length) (hm : (ps.getD i defaultP).id = "MISSING")
    (hj : ∃ j, j < i ∧ (ps.getD j defaultP).id = "MISSING") :
    ((validate_products ps).getD i defaultVP).flags.duplicate_id = "Erreur" := by
  rcases hj with ⟨j, hji, hjm⟩
  have hiff := validateGo_dup [] ps i h
  simp only [List.not_mem_nil, false_or] at hiff
  show ((validateGo [] ps).getD i defaultVP).flags.duplicate_id = "Erreur"
  exact hiff.mpr ⟨j, hji, by rw [hjm, hm]⟩

/-- Witness for C10: two id-less products; the second is flagged. -/
theorem c10_missing_id_duplicates_witness :
    ((validate_products [defaultP, defaultP]).getD 1
      defaultVP).flags.duplicate_id = "Erreur" :=
  c10_missing_id_duplicates [defaultP, defaultP] 1 (by norm_num) rfl
    ⟨0, by omega, rfl⟩

/-! ### C9: the two price rules on `"0.00 EUR"` -/

theorem validateOne_invalid_price (s : List String) (p : Product) :
    (validateOne s p).invalid_or_missing_price =
      errFlag (p.price = "MISSING" || !matchPriceValid p.price.data) := rfl

theorem validateOne_null_price (s : List String) (p : Product) :
    (validateOne s p).null_price = errFlag (startsWithZero p.price) := rfl

/-- C9: a product whose price is `"0.00 EUR"` gets
`invalid_or_missing_price = OK` (the value matches
`_PRICE_VALID_RE`) and `null_price = Erreur` (the value starts with
the digit 0): the two price rules are independent and disagree
here. -/
theorem c9_zero_price_flags (ps : List Product) (i : Nat) (h : i < ps.length)
    (hp : (ps.getD i defaultP).price = "0.00 EUR") :
    ((validate_products ps).getD i defaultVP).flags.invalid_or_missing_price = "OK" ∧
    ((validate_products ps).getD i defaultVP).flags.null_price = "Erreur" := by
  obtain ⟨s, hs⟩ := validate_products_flags ps i h
  constructor
  · rw [hs]
    dsimp only
    rw [validateOne_invalid_price, hp]
    decide
  · rw [hs]
    dsimp only
    rw [validateOne_null_price, hp]
    decide

/-- Witness for C9 at a concrete one-product batch. -/
theorem c9_zero_price_flags_witness :
    ((validate_products [{price := "0.00 EUR"}]).getD 0
      defaultVP).flags.invalid_or_missing_price = "OK" ∧
    ((validate_products [{price := "0.00 EUR"}]).getD 0
      defaultVP).flags.null_price = "Erreur" :=
  c9_zero_price_flags [{price := "0.00 EUR"}] 0 (by norm_num) rfl

/-! ### C8: the report aggregator on an empty batch -/

/-- C8: on an empty validated batch the aggregator divides by the
guarded total 1 and reports 0% missing for every attribute key. -/
theorem c8_empty_batch_stats (attr : String) :
    excelMissingPct [] attr = 0 ∧ excelTotal [] = 1 ∧
    excelMissing [] attr = 0 := by
  refine ⟨?_, rfl, rfl⟩
  simp [excelMissingPct, excelMissing, excelTotal]

/-! ### C7: `normalize_gtin` -/

/-- C7 (amended): `normalize_gtin "8.8061E+12"` is a 13-character
all-digit string; `normalize_gtin "MISSING"` is `"MISSING"`; and
every nonempty input that `Decimal`/`int` rejects with a caught
exception is returned unchanged.  (The empty string is the one
rejected input not returned unchanged: it is mapped to the
sentinel, see the counterexample.) -/
theorem c7_gtin_normalization :
    (∃ s, normalize_gtin "8.8061E+12" = some s ∧ s.length = 13 ∧
      s.data.all isDig = true) ∧
    normalize_gtin "MISSING" = some "MISSING" ∧
    (∀ s : String, s ≠ "" → pyDecimalInt s = DecOut.caught →
      normalize_gtin s = some s) := by
  refine ⟨⟨"8806100000000", by decide, by decide, by decide⟩, rfl, ?_⟩
  intro s hne hmiss
  rcases eq_or_ne s "MISSING" with h | h
  · subst h; rfl
  · unfold normalize_gtin
    rw [if_neg (by simp [hne, h]), hmiss]

/-- Witness for C7 at the rejected literal `"abc"`. -/
theorem c7_gtin_normalization_witness :
    normalize_gtin "abc" = some "abc" :=
  c7_gtin_normalization.2.2 "abc" (by decide) (by decide)

/-- Counterexample to C7 as stated: the empty string is non-numeric
(`Decimal("")` raises the caught `InvalidOperation`), yet
`normalize_gtin` maps it to the sentinel instead of returning it
unchanged. -/
theorem c7_empty_input_not_unchanged :
    normalize_gtin "" = some "MISSING" ∧ pyDecimalInt "" = DecOut.caught ∧
    ("MISSING" : String) ≠ "" := ⟨rfl, by decide, by decide⟩

/-! ### Dict lemmas -/

theorem dget_dset (d : Dict) (k v kq : String) :
    dget (dset d k v) kq = if kq = k then some v else dget d kq := by
  induction d with
  | nil => simp [dset, dget]
  | cons kv d ih =>
    obtain ⟨k1, v1⟩ := kv
    by_cases h1 : k1 = k
    · subst h1
      by_cases h2 : kq = k1 <;> simp [dset, dget, h2]
    · by_cases h2 : kq = k1
      · subst h2
        simp [dset, dget, h1, Ne.symm h1]
      · simp [dset, dget, h1, h2, ih]

theorem dget_append (d1 d2 : Dict) (kq : String) :
    dget (d1 ++ d2) kq =
      match dget d1 kq with
      | some v => some v
      | none => dget d2 kq := by
  induction d1 with
  | nil => simp [dget]
  | cons kv d ih =>
    by_cases h : kq = kv.1 <;> simp [dget, h, ih]

theorem dget_dset_isSome (d : Dict) (k v kq : String)
    (h : (dget d kq).isSome) : (dget (dset d k v) kq).isSome := by
  rw [dget_dset]
  split <;> simp_all

theorem dsetdefault_isSome (d : Dict) (k v kq : String)
    (h : (dget d kq).isSome) : (dget (dsetdefault d k v) kq).isSome := by
  unfold dsetdefault
  split
  · exact h
  · rw [dget_append]
    obtain ⟨w, hw⟩ := Option.isSome_iff_exists.mp h
    simp [hw]

theorem dsetdefault_isSome_self (d : Dict) (k v : String) :
    (dget (dsetdefault d k v) k).isSome := by
  unfold dsetdefault
  split
  · assumption
  · rw [dget_append]
    rename_i h
    rw [Option.not_isSome_iff_eq_none] at h
    simp [h, dget]

/-! ### Scanning a list from its end -/

theorem getD_append_last {α : Type} (l : List α) (b d : α) :
    (l ++ [b]).getD l.length d = b := by
  induction l with
  | nil => rfl
  | cons x l ih => simp only [List.cons_append, List.length_cons,
      List.getD_cons_succ]; exact ih

theorem find?_reverse_some {α : Type} (l : List α) (p : α → Bool) (d a : α)
    (h : l.reverse.find? p = some a) :
    ∃ i, i < l.length ∧ l.getD i d = a ∧ p a = true ∧
      ∀ j, i < j → j < l.length → p (l.getD j d) = false := by
  induction l using List.reverseRecOn with
  | nil => simp at h
  | append_singleton l b ih =>
    rw [List.reverse_append] at h
    simp only [List.reverse_singleton, List.singleton_append,
      List.find?_cons] at h
    rcases hb : p b with _ | _
    · rw [hb] at h
      obtain ⟨i, hi, hget, hp, hafter⟩ := ih h
      refine ⟨i, by simp; omega, ?_, hp, ?_⟩
      · rw [List.getD_append]
        · exact hget
        · exact hi
      · intro j hij hj
        simp only [List.length_append, List.length_singleton] at hj
        rcases Nat.lt_or_ge j l.length with hj2 | hj2
        · rw [List.getD_append]
          · exact hafter j hij hj2
          · exact hj2
        · have : j = l.length := by omega
          subst this
          rw [getD_append_last]
          exact hb
    · rw [hb] at h
      have hba : b = a := by injection h
      refine ⟨l.length, by simp, ?_, ?_, ?_⟩
      · rw [getD_append_last, hba]
      · rw [← hba]; exact hb
      · intro j hij hj
        simp only [List.length_append, List.length_singleton] at hj
        omega

theorem find?_reverse_none {α : Type} (l : List α) (p : α → Bool)
    (h : l.reverse.find? p = none) : ∀ x ∈ l, p x = false := by
  rw [List.find?_eq_none] at h
  intro x hx
  simpa using h x (by simp [hx])

/-! ### The text extractor and `ships_from_country` -/

theorem txtShips_ships (fields : List String) (p : Dict) :
    dget (txtShips fields p) "ships_from_country" =
      match fields.reverse.find? shipsPred with
      | some f => some (pyStrip f)
      | none => dget p "ships_from_country" := by
  unfold txtShips
  split
  · rw [dget_dset, if_pos rfl]
  · rfl

theorem txtRegtin_other (p : Dict) (d : Dict) (kq : String)
    (h2 : kq ≠ "gtin") (h : txtRegtin p = some d) :
    dget d kq = dget p kq := by
  unfold txtRegtin at h
  split at h
  · exact absurd h (by simp)
  · injection h with h
    subst h
    rw [dget_dset, if_neg h2]

theorem txtFinish_other (p : Dict) (d : Dict) (kq : String)
    (h1 : kq ≠ "price") (h2 : kq ≠ "gtin") (h : txtFinish p = some d) :
    dget d kq = dget p kq := by
  unfold txtFinish at h
  rw [txtRegtin_other _ _ _ h2 h, dget_dset, if_neg h1]

theorem dget_txtBrand_other (fields : List String) (p : Dict) (kq : String)
    (h : kq ≠ "brand") : dget (txtBrand fields p) kq = dget p kq := by
  unfold txtBrand
  split
  · rw [dget_dset, if_neg h]
  · rfl

theorem dget_txtAddImg_other (fields : List String) (p : Dict) (kq : String)
    (h : kq ≠ "additional_image_link") :
    dget (txtAddImg fields p) kq = dget p kq := by
  unfold txtAddImg
  split
  · split
    · rw [dget_dset, if_neg h]
    · rfl
  · rfl

theorem dget_txtInit_ships : dget txtInit "ships_from_country" = some "MISSING" := by
  decide

theorem dget_txtFixed_ships (fields : List String) (gt : String) :
    dget (txtFixed fields gt) "ships_from_country" = some "MISSING" := by
  unfold txtFixed
  repeat rw [dget_dset, if_neg (by decide)]
  exact dget_txtInit_ships

theorem txtBase_ships (fields : List String) (d : Dict)
    (h : txtBase fields = some d) :
    dget d "ships_from_country" = some "MISSING" := by
  unfold txtBase at h
  split at h
  · exact absurd h (by simp)
  · injection h with h
    subst h
    rw [dget_txtAddImg_other _ _ _ (by decide),
        dget_txtBrand_other _ _ _ (by decide), dget_txtFixed_ships]


/-- What `parseTxtLine` stores under `ships_from_country`. -/
theorem parseTxtLine_ships (ln : String) (d : Dict)
    (h : parseTxtLine ln = some d) :
    dget d "ships_from_country" =
      match (splitPipe ln).reverse.find? shipsPred with
      | some f => some (pyStrip f)
      | none => some "MISSING" := by
  unfold parseTxtLine at h
  rcases hb : txtBase (splitPipe ln) with _ | p
  · rw [hb] at h; exact absurd h (by simp)
  · rw [hb] at h
    simp only [Option.some_bind] at h
    rw [txtFinish_other _ _ _ (by decide) (by decide) h, txtShips_ships]
    split
    · rfl
    · exact txtBase_ships _ _ hb

/-- C5 (amended): for every line the text extractor processes,
`ships_from_country` is the stripped value of the last
pipe-separated field (scanning from the end) whose trimmed value
has length 2 or 3 and satisfies Python `isupper` — at least one
cased character and no lowercase one (`shipsPred`); when no field
qualifies, it stays `MISSING`.  (The spec's "entirely uppercase
letters" is wrong: `isupper` ignores uncased characters such as
digits, see the counterexample.) -/
theorem c5_ships_from_country (ln : String) (d : Dict)
    (h : parseTxtLine ln = some d) :
    ((∀ f ∈ splitPipe ln, shipsPred f = false) →
      dget d "ships_from_country" = some "MISSING") ∧
    ((∃ f ∈ splitPipe ln, shipsPred f = true) →
      ∃ i, i < (splitPipe ln).length ∧
        shipsPred ((splitPipe ln).getD i "") = true ∧
        (∀ j, i < j → j < (splitPipe ln).length →
          shipsPred ((splitPipe ln).getD j "") = false) ∧
        dget d "ships_from_country" =
          some (pyStrip ((splitPipe ln).getD i ""))) := by
  have hs := parseTxtLine_ships ln d h
  constructor
  · intro hall
    rcases hf : (splitPipe ln).reverse.find? shipsPred with _ | a
    · rw [hf] at hs; exact hs
    · have hpa := List.find?_some hf
      have hmem : a ∈ splitPipe ln := by
        have := List.mem_of_find?_eq_some hf
        simpa using this
      rw [hall a hmem] at hpa
      simp at hpa
  · rintro ⟨f, hf, hpf⟩
    rcases hfind : (splitPipe ln).reverse.find? shipsPred with _ | a
    · have := find?_reverse_none _ _ hfind f hf
      rw [hpf] at this
      simp at this
    · obtain ⟨i, hi, hget, hp, hafter⟩ :=
        find?_reverse_some (splitPipe ln) shipsPred "" a hfind
      refine ⟨i, hi, by rw [hget]; exact hp, hafter, ?_⟩
      rw [hs, hfind, hget]

/-- Witness for C5: in line `"DE|x"` the only qualifying field is
`DE`, and it is stored. -/
theorem c5_ships_from_country_witness :
    ∃ d, parseTxtLine "DE|x" = some d ∧
      ∃ i, i < (splitPipe "DE|x").length ∧
        shipsPred ((splitPipe "DE|x").getD i "") = true ∧
        (∀ j, i < j → j < (splitPipe "DE|x").length →
          shipsPred ((splitPipe "DE|x").getD j "") = false) ∧
        dget d "ships_from_country" =
          some (pyStrip ((splitPipe "DE|x").getD i "")) := by
  rcases hd : parseTxtLine "DE|x" with _ | d
  · exact absurd hd (by decide)
  · exact ⟨d, rfl,
      (c5_ships_from_country "DE|x" d hd).2 ⟨"DE", by decide, by decide⟩⟩

/-- Counterexample to C5 as stated: in line `"x|A1"` no field
consists entirely of uppercase letters, so the claim says
`ships_from_country` stays `MISSING`; but `"A1"` has length 2 and
satisfies Python `isupper` (the digit is uncased), and the code
stores `"A1"`. -/
theorem c5_isupper_digit_field :
    (parseTxtLine "x|A1").bind (fun d => dget d "ships_from_country") =
      some "A1" ∧
    SpecUpperLetters "A1" = false ∧ SpecUpperLetters "x" = false ∧
    ("A1" : String) ≠ "MISSING" :=
  ⟨by decide, by decide, by decide, by decide⟩

/-! ### C2: the namespaced/plain fallback set of the Merchant extractor -/

theorem dget_cons_same {k1 v1 : String} {d1 d2 : Dict} {k : String}
    (h : dget d1 k = dget d2 k) :
    dget ((k1, v1) :: d1) k = dget ((k1, v1) :: d2) k := by
  by_cases hk : k = k1 <;> simp [dget, hk, h]

theorem dget_cons_skip {k1 v1 v2 : String} {d1 d2 : Dict} {k : String}
    (hne : k ≠ k1) (h : dget d1 k = dget d2 k) :
    dget ((k1, v1) :: d1) k = dget ((k1, v2) :: d2) k := by
  simp [dget, hne, h]

/-- C2 (amended): exactly the four attributes `title`,
`description`, `link` and `google_product_category` are read
through `g_or_plain`, which falls back to the non-namespaced
sibling tag when the namespaced tag is absent or empty; the value
of every other attribute is independent of the non-namespaced
tags. -/
theorem c2_fallback_attrs :
    (∀ (it : GItem) (d : Dict), _parse_google_item it = some d →
      dget d "title" = some (g_or_plain it "title") ∧
      dget d "description" = some (g_or_plain it "description") ∧
      dget d "link" = some (g_or_plain it "link") ∧
      dget d "google_product_category" =
        some (g_or_plain it "google_product_category")) ∧
    (∀ (it : GItem) (tag : String),
      (it.gfind tag = none ∨ it.gfind tag = some "") →
      g_or_plain it tag = pyOrMissing (pyStrip ((it.plainfind tag).getD ""))) ∧
    (∀ (g pf1 pf2 : String → Option String) (sh : Option (List String))
      (pd : List (List String)) (k : String),
      k ≠ "title" → k ≠ "description" → k ≠ "link" →
      k ≠ "google_product_category" →
      (_parse_google_item ⟨g, pf1, sh, pd⟩).bind (fun d => dget d k) =
        (_parse_google_item ⟨g, pf2, sh, pd⟩).bind (fun d => dget d k)) := by
  refine ⟨?_, ?_, ?_⟩
  · intro it d h
    unfold _parse_google_item at h
    split at h
    · exact absurd h (by simp)
    · injection h with h
      subst h
      refine ⟨?_, ?_, ?_, ?_⟩ <;> simp [dget]
  · intro it tag h
    rcases h with h | h <;> simp [g_or_plain, pyOr2, h]
  · intro g pf1 pf2 sh pd k h1 h2 h3 h4
    unfold _parse_google_item
    dsimp only [gVal, g_or_plain, googleShippingBlock, googleProductDetail]
    cases normalize_gtin (pyOrMissing (pyStrip ((g "gtin").getD ""))) with
    | none => rfl
    | some gt =>
      simp only [Option.some_bind]
      exact dget_cons_same (dget_cons_skip h1 (dget_cons_skip h2
        (dget_cons_skip h3 (dget_cons_same (dget_cons_same
        (dget_cons_same (dget_cons_same (dget_cons_same (dget_cons_same
        (dget_cons_same (dget_cons_same (dget_cons_same (dget_cons_same
        (dget_cons_same (dget_cons_same (dget_cons_same (dget_cons_same
        (dget_cons_same (dget_cons_same (dget_cons_same (dget_cons_same
        (dget_cons_same (dget_cons_same (dget_cons_same (dget_cons_same
        (dget_cons_same (dget_cons_same (dget_cons_same (dget_cons_same
        (dget_cons_same (dget_cons_same (dget_cons_same (dget_cons_same
        (dget_cons_same (dget_cons_same (dget_cons_same (dget_cons_same
        (dget_cons_same (dget_cons_same (dget_cons_same (dget_cons_same
        (dget_cons_same (dget_cons_skip h4
        (rfl))))))))))))))))))))))))))))))))))))))))))))

/-- Witness for C2: a concrete item carrying `title` only as a
plain tag; the extractor stores the plain value for `title`, and a
`brand` read is unaffected by plain tags. -/
theorem c2_fallback_attrs_witness :
    g_or_plain ⟨fun _ => none, fun t => if t = "title" then some "T-shirt" else none,
        none, []⟩ "title" = "T-shirt" ∧
    (_parse_google_item ⟨fun _ => none,
        fun t => if t = "brand" then some "B" else none, none, []⟩).bind
      (fun d => dget d "brand") =
      (_parse_google_item ⟨fun _ => none, fun _ => none, none, []⟩).bind
        (fun d => dget d "brand") := by
  constructor
  · rw [c2_fallback_attrs.2.1 _ "title" (Or.inl rfl)]
    decide
  · exact c2_fallback_attrs.2.2 (fun _ => none)
      (fun t => if t = "brand" then some "B" else none) (fun _ => none)
      none [] "brand" (by decide) (by decide) (by decide) (by decide)

/-- Counterexample to C2 as stated: `google_product_category` also
falls back to the plain tag — an item carrying it only
un-namespaced yields `"166"`, not `MISSING`. -/
theorem c2_gpc_plain_fallback :
    (_parse_google_item ⟨fun _ => none,
        fun t => if t = "google_product_category" then some "166" else none,
        none, []⟩).bind (fun d => dget d "google_product_category") =
      some "166" ∧ ("166" : String) ≠ "MISSING" :=
  ⟨by decide, by decide⟩

/-! ### C4: every canonical key is present after extraction -/

theorem dget_isSome_of_key_mem (d : Dict) (k : String)
    (h : k ∈ d.map Prod.fst) : (dget d k).isSome := by
  induction d with
  | nil => simp at h
  | cons kv d ih =>
    by_cases hk : k = kv.1
    · simp [dget, hk]
    · simp only [List.map_cons, List.mem_cons] at h
      rcases h with h | h
      · exact absurd h hk
      · simpa [dget, hk] using ih h

theorem foldl_dsetdefault_pres (attrs : List String) (d : Dict) (k : String)
    (h : (dget d k).isSome) :
    (dget (attrs.foldl (fun acc a => dsetdefault acc a "MISSING") d) k).isSome := by
  induction attrs generalizing d with
  | nil => exact h
  | cons a attrs ih => exact ih _ (dsetdefault_isSome _ _ _ _ h)

theorem foldl_dsetdefault_isSome (attrs : List String) (d : Dict) (k : String)
    (hk : k ∈ attrs) :
    (dget (attrs.foldl (fun acc a => dsetdefault acc a "MISSING") d) k).isSome := by
  induction attrs generalizing d with
  | nil => simp at hk
  | cons a attrs ih =>
    rcases List.mem_cons.mp hk with h | h
    · subst h
      exact foldl_dsetdefault_pres attrs _ k (dsetdefault_isSome_self d k _)
    · exact ih _ h

theorem txtBase_keys (fields : List String) (p : Dict)
    (h : txtBase fields = some p) (k : String) (hk : k ∈ _PRODUCT_ATTRS) :
    (dget p k).isSome := by
  have h0 : (dget txtInit k).isSome := by
    apply dget_isSome_of_key_mem
    simpa [txtInit] using hk
  unfold txtBase at h
  split at h
  · exact absurd h (by simp)
  · injection h with h
    subst h
    unfold txtAddImg
    split
    · split
      · apply dget_dset_isSome
        unfold txtBrand
        split
        · apply dget_dset_isSome
          unfold txtFixed
          repeat apply dget_dset_isSome
          exact h0
        · unfold txtFixed
          repeat apply dget_dset_isSome
          exact h0
      · unfold txtBrand
        split
        · apply dget_dset_isSome
          unfold txtFixed
          repeat apply dget_dset_isSome
          exact h0
        · unfold txtFixed
          repeat apply dget_dset_isSome
          exact h0
    · unfold txtBrand
      split
      · apply dget_dset_isSome
        unfold txtFixed
        repeat apply dget_dset_isSome
        exact h0
      · unfold txtFixed
        repeat apply dget_dset_isSome
        exact h0

theorem parseTxtLine_keys (ln : String) (d : Dict)
    (h : parseTxtLine ln = some d) (k : String) (hk : k ∈ _PRODUCT_ATTRS) :
    (dget d k).isSome := by
  unfold parseTxtLine at h
  rcases hb : txtBase (splitPipe ln) with _ | p
  · rw [hb] at h; exact absurd h (by simp)
  · rw [hb] at h
    simp only [Option.some_bind] at h
    unfold txtFinish txtRegtin at h
    split at h
    · exact absurd h (by simp)
    · injection h with h
      subst h
      apply dget_dset_isSome
      apply dget_dset_isSome
      unfold txtShips
      split
      · apply dget_dset_isSome
        exact txtBase_keys _ _ hb k hk
      · exact txtBase_keys _ _ hb k hk

theorem mapM_mem_source {α β : Type} (f : α → Option β) (l : List α)
    (l' : List β) (h : l.mapM f = some l') (b : β) (hb : b ∈ l') :
    ∃ a ∈ l, f a = some b := by
  induction l generalizing l' with
  | nil =>
    simp only [List.mapM_nil, Option.pure_def, Option.some.injEq] at h
    subst h
    simp at hb
  | cons a l ih =>
    simp only [List.mapM_cons, Option.pure_def, Option.bind_eq_bind] at h
    rcases ha : f a with _ | b0 <;> rw [ha] at h
    · simp at h
    · rcases hl : l.mapM f with _ | bs <;> rw [hl] at h
      · simp at h
      · simp only [Option.some_bind, Option.some.injEq] at h
        subst h
        rcases List.mem_cons.mp hb with h | h
        · exact ⟨a, List.mem_cons_self a l, by rw [ha, h]⟩
        · obtain ⟨a', ha', hfa'⟩ := ih bs hl h
          exact ⟨a', List.mem_cons_of_mem a ha', hfa'⟩

set_option maxRecDepth 4000 in
set_option maxHeartbeats 1600000 in
/-- C4 (amended): whenever extraction completes (it raises an
uncaught `OverflowError` exactly when a gtin value is an
infinity-form decimal literal, see the counterexample), the
returned record carries all 44 canonical attribute keys — in all
three dialects — and a fully empty source record yields the
sentinel `MISSING` on every key. -/
theorem c4_all_keys :
    (∀ (it : GItem) (d : Dict), _parse_google_item it = some d →
      ∀ k ∈ _PRODUCT_ATTRS, (dget d k).isSome) ∧
    (∀ (it : FItem) (d : Dict), _parse_french_item it = some d →
      ∀ k ∈ _PRODUCT_ATTRS, (dget d k).isSome) ∧
    (∀ (content : String) (ds : List Dict), parse_txt content = some ds →
      ∀ d ∈ ds, ∀ k ∈ _PRODUCT_ATTRS, (dget d k).isSome) ∧
    ((_parse_google_item ⟨fun _ => none, fun _ => none, none, []⟩).map
      (fun d => _PRODUCT_ATTRS.all fun k => dget d k == some "MISSING") =
      some true) ∧
    ((_parse_french_item ⟨fun _ => none⟩).map
      (fun d => _PRODUCT_ATTRS.all fun k => dget d k == some "MISSING") =
      some true) ∧
    ((parseTxtLine "|").map
      (fun d => _PRODUCT_ATTRS.all fun k => dget d k == some "MISSING") =
      some true) := by
  refine ⟨?_, ?_, ?_, by decide, by decide, by decide⟩
  · intro it d h k hk
    unfold _parse_google_item at h
    split at h
    · exact absurd h (by simp)
    · injection h with h
      subst h
      apply dget_isSome_of_key_mem
      simp only [List.map_cons, List.map_nil]
      have sub : ∀ x ∈ _PRODUCT_ATTRS, x ∈
          (["id", "title", "description", "link", "image_link", "price",
            "sale_price", "availability", "condition", "brand", "gtin",
            "mpn", "color", "size", "age_group", "gender", "item_group_id",
            "certification_authority", "certification_name",
            "certification_code", "product_length", "product_width",
            "product_height", "product_weight", "shipping_length",
            "shipping_width", "shipping_height", "shipping",
            "shipping_weight", "pattern", "material",
            "additional_image_link", "size_type", "size_system",
            "canonical_link", "expiration_date",
            "sale_price_effective_date", "product_highlight",
            "ships_from_country", "minimum_handling_time",
            "max_handling_time", "availability_date", "product_detail",
            "google_product_category"] : List String) := by decide
      exact sub k hk
  · intro it d h k hk
    unfold _parse_french_item at h
    split at h
    · exact absurd h (by simp)
    · rw [Option.some.injEq] at h
      subst h
      exact foldl_dsetdefault_isSome _ _ k hk
  · intro content ds h d hd k hk
    obtain ⟨ln, _, hln⟩ := mapM_mem_source parseTxtLine _ ds h d hd
    exact parseTxtLine_keys ln d hln k hk

/-- Witness for C4: apply the Merchant branch to the empty item. -/
theorem c4_all_keys_witness :
    ∃ d, _parse_google_item ⟨fun _ => none, fun _ => none, none, []⟩ = some d ∧
      (dget d "google_product_category").isSome := by
  rcases hd : _parse_google_item ⟨fun _ => none, fun _ => none, none, []⟩
    with _ | d
  · exact absurd hd (by decide)
  · exact ⟨d, rfl, c4_all_keys.1 _ d hd "google_product_category" (by decide)⟩

/-- Counterexample to C4 as stated: on a Merchant item whose gtin
is the decimal literal `Inf`, `int(Decimal(...))` raises an
uncaught `OverflowError` and the extractor returns no record at
all. -/
theorem c4_gtin_infinity_no_record :
    _parse_google_item ⟨fun t => if t = "gtin" then some "Inf" else none,
      fun _ => none, none, []⟩ = none := by decide

/-! ### C1: the price-validity rule -/

theorem isUp_not_isDig {c : Char} (h : isUp c = true) : isDig c = false := by
  rw [Bool.eq_false_iff]
  intro hd
  simp only [isUp, isDig, Bool.and_eq_true, decide_eq_true_eq] at h hd
  omega

theorem isUp_not_space {c : Char} (h : isUp c = true) : isPySpaceChar c = false := by
  rw [Bool.eq_false_iff]
  intro hd
  simp only [isUp, isPySpaceChar, Bool.and_eq_true, Bool.or_eq_true,
    decide_eq_true_eq] at h hd
  omega

theorem isPySpace_not_isDig {c : Char} (h : isPySpaceChar c = true) :
    isDig c = false := by
  rw [Bool.eq_false_iff]
  intro hd
  simp only [isPySpaceChar, isDig, Bool.and_eq_true, Bool.or_eq_true,
    decide_eq_true_eq] at h hd
  omega

theorem takeWhile_append_of (p : Char → Bool) (xs : List Char) (y : Char)
    (ys : List Char) (hxs : ∀ c ∈ xs, p c = true) (hy : p y = false) :
    (xs ++ y :: ys).takeWhile p = xs ∧ (xs ++ y :: ys).dropWhile p = y :: ys := by
  induction xs with
  | nil => simp [List.takeWhile_cons, List.dropWhile_cons, hy]
  | cons x xs ih =>
    have hx : p x = true := hxs x (by simp)
    have h2 := ih fun c hc => hxs c (by simp [hc])
    simp [List.takeWhile_cons, List.dropWhile_cons, hx, h2.1, h2.2]

theorem priceValidCore_iff (r : List Char) :
    priceValidCore r = true ↔
      ∃ cur nl : List Char, r = cur ++ nl ∧ cur.length = 3 ∧
        (∀ c ∈ cur, isUp c = true) ∧ (nl = [] ∨ nl = ['\n']) := by
  constructor
  · intro h
    unfold priceValidCore at h
    split at h
    · rename_i a b c
      simp only [Bool.and_eq_true] at h
      refine ⟨[a, b, c], [], by simp, rfl, ?_, Or.inl rfl⟩
      intro x hx
      simp only [List.mem_cons, List.not_mem_nil, or_false] at hx
      rcases hx with rfl | rfl | rfl
      · exact h.1.1
      · exact h.1.2
      · exact h.2
    · rename_i a b c n
      simp only [Bool.and_eq_true, decide_eq_true_eq] at h
      refine ⟨[a, b, c], ['\n'], by rw [h.2]; rfl, rfl, ?_, Or.inr rfl⟩
      intro x hx
      simp only [List.mem_cons, List.not_mem_nil, or_false] at hx
      rcases hx with rfl | rfl | rfl
      · exact h.1.1.1
      · exact h.1.1.2
      · exact h.1.2
    · simp at h
  · rintro ⟨cur, nl, rfl, hlen, hup, hnl⟩
    obtain ⟨a, b, c, rfl⟩ := List.length_eq_three.mp hlen
    have ha := hup a (by simp)
    have hb := hup b (by simp)
    have hc := hup c (by simp)
    rcases hnl with rfl | rfl
    · simp [priceValidCore, ha, hb, hc]
    · simp [priceValidCore, ha, hb, hc]

theorem priceValidTail_iff (rest : List Char) :
    priceValidTail rest = true ↔
      ∃ sp cur nl : List Char, rest = sp ++ (cur ++ nl) ∧
        (sp = [] ∨ ∃ w, sp = [w] ∧ isPySpaceChar w = true) ∧
        cur.length = 3 ∧ (∀ c ∈ cur, isUp c = true) ∧
        (nl = [] ∨ nl = ['\n']) := by
  constructor
  · intro h
    unfold priceValidTail at h
    split at h
    · rename_i c tl
      by_cases hsp : isPySpaceChar c = true
      · rw [if_pos hsp] at h
        obtain ⟨cur, nl, htl, hlen, hup, hnl⟩ := (priceValidCore_iff tl).mp h
        exact ⟨[c], cur, nl, by simp [htl], Or.inr ⟨c, rfl, hsp⟩, hlen, hup, hnl⟩
      · rw [if_neg hsp] at h
        obtain ⟨cur, nl, htl, hlen, hup, hnl⟩ :=
          (priceValidCore_iff (c :: tl)).mp h
        exact ⟨[], cur, nl, by simp [htl], Or.inl rfl, hlen, hup, hnl⟩
    · simp at h
  · rintro ⟨sp, cur, nl, rfl, hsp, hlen, hup, hnl⟩
    obtain ⟨a, b, c, rfl⟩ := List.length_eq_three.mp hlen
    rcases hsp with rfl | ⟨w, rfl, hw⟩
    · have hnsp : isPySpaceChar a = false := isUp_not_space (hup a (by simp))
      show priceValidTail (a :: (b :: c :: nl)) = true
      simp only [priceValidTail]
      rw [if_neg (by simp [hnsp])]
      exact (priceValidCore_iff _).mpr ⟨[a, b, c], nl, rfl, rfl, hup, hnl⟩
    · show priceValidTail (w :: ([a, b, c] ++ nl)) = true
      simp only [priceValidTail]
      rw [if_pos hw]
      exact (priceValidCore_iff _).mpr ⟨[a, b, c], nl, rfl, rfl, hup, hnl⟩

theorem tail_decomp (sp cur nl : List Char)
    (hsp : sp = [] ∨ ∃ w, sp = [w] ∧ isPySpaceChar w = true)
    (hlen : cur.length = 3) (hup : ∀ c ∈ cur, isUp c = true)
    (hnl : nl = [] ∨ nl = ['\n']) :
    ∃ y ys, sp ++ (cur ++ nl) = y :: ys ∧ isDig y = false ∧ y ≠ '.' ∧
      priceValidTail (y :: ys) = true := by
  obtain ⟨a, b, c, rfl⟩ := List.length_eq_three.mp hlen
  have ha := hup a (by simp)
  rcases hsp with rfl | ⟨w, rfl, hw⟩
  · refine ⟨a, b :: c :: nl, by simp, isUp_not_isDig ha, ?_, ?_⟩
    · intro he; rw [he] at ha; exact absurd ha (by decide)
    · exact (priceValidTail_iff _).mpr
        ⟨[], [a, b, c], nl, rfl, Or.inl rfl, rfl, hup, hnl⟩
  · refine ⟨w, [a, b, c] ++ nl, by simp, isPySpace_not_isDig hw, ?_, ?_⟩
    · intro he; rw [he] at hw; exact absurd hw (by decide)
    · exact (priceValidTail_iff _).mpr
        ⟨[w], [a, b, c], nl, rfl, Or.inr ⟨w, rfl, hw⟩, rfl, hup, hnl⟩

theorem matchPriceValid_iff (s : String) :
    matchPriceValid s.data = true ↔ AmendedPricePattern s := by
  constructor
  · intro h
    unfold matchPriceValid at h
    split at h
    · simp at h
    · rename_i hne
      have hds : ∀ c ∈ s.data.takeWhile isDig, isDig c = true :=
        fun c hc => List.mem_takeWhile_imp hc
      have hsplit := List.takeWhile_append_dropWhile isDig s.data
      split at h
      · rename_i r2 heq
        split at h
        · rename_i hlen12
          obtain ⟨sp, cur, nl, hrest, hsp, hlen, hup, hnl⟩ :=
            (priceValidTail_iff _).mp h
          refine ⟨s.data.takeWhile isDig, '.' :: r2.takeWhile isDig, sp, cur,
            nl, ?_, by simpa using hne, hds,
            Or.inr ⟨r2.takeWhile isDig, rfl,
              (fun c hc => List.mem_takeWhile_imp hc), by simpa using hlen12⟩,
            hsp, hlen, hup, hnl⟩
          have h2 := List.takeWhile_append_dropWhile isDig r2
          calc s.data
              = s.data.takeWhile isDig ++ s.data.dropWhile isDig := hsplit.symm
            _ = s.data.takeWhile isDig ++ ('.' :: r2) := by rw [heq]
            _ = s.data.takeWhile isDig ++
                ('.' :: (r2.takeWhile isDig ++ r2.dropWhile isDig)) := by
                  rw [h2]
            _ = s.data.takeWhile isDig ++ ('.' :: r2.takeWhile isDig) ++
                sp ++ cur ++ nl := by
                  rw [hrest]
                  simp [List.append_assoc]
        · simp at h
      · obtain ⟨sp, cur, nl, hrest, hsp, hlen, hup, hnl⟩ :=
          (priceValidTail_iff _).mp h
        refine ⟨s.data.takeWhile isDig, [], sp, cur, nl, ?_,
          by simpa using hne, hds, Or.inl rfl, hsp, hlen, hup, hnl⟩
        calc s.data
            = s.data.takeWhile isDig ++ s.data.dropWhile isDig := hsplit.symm
          _ = s.data.takeWhile isDig ++ [] ++ sp ++ cur ++ nl := by
              rw [hrest]; simp [List.append_assoc]
  · rintro ⟨ds, fr, sp, cur, nl, hsd, hdne, hdig, hfr, hsp, hlen, hup, hnl⟩
    obtain ⟨y, ys, hys, hynd, hydot, htail⟩ := tail_decomp sp cur nl hsp hlen hup hnl
    rcases hfr with rfl | ⟨fds, rfl, hfds, hfdlen⟩
    · have hsd' : s.data = ds ++ y :: ys := by
        rw [hsd]
        simp only [List.append_assoc, List.nil_append]
        rw [hys]
      have htk := takeWhile_append_of isDig ds y ys hdig hynd
      unfold matchPriceValid
      rw [hsd', htk.1, htk.2, if_neg (by simpa using hdne)]
      split
      · rename_i r2 heq
        exact absurd (List.cons.inj heq).1 hydot
      · exact htail
    · have hsd' : s.data = ds ++ '.' :: (fds ++ (y :: ys)) := by
        rw [hsd]
        simp only [List.append_assoc, List.cons_append]
        rw [hys]
      have htk := takeWhile_append_of isDig ds '.' (fds ++ y :: ys) hdig
        (by decide)
      have htk2 := takeWhile_append_of isDig fds y ys hfds hynd
      unfold matchPriceValid
      rw [hsd', htk.1, htk.2, if_neg (by simpa using hdne)]
      split
      · rename_i r2 heq
        have hr2 : r2 = fds ++ y :: ys := by injection heq with _ h2; exact h2.symm
        subst hr2
        rw [htk2.1, htk2.2, if_pos (by simpa using hfdlen)]
        exact htail
      · rename_i hne2
        exact ((hne2 (fds ++ y :: ys)) rfl).elim

/-- C1 (amended): for every product in a validated batch,
`invalid_or_missing_price` is `Erreur` exactly when the price is
`MISSING` or does not match: one or more digits, an optional `.`
followed by 1-2 decimal digits, an OPTIONAL single whitespace
character, and exactly 3 uppercase letters (with `$` admitting one
trailing newline).  In particular a price with no space between
amount and currency, such as `"5EUR"`, is OK, not Erreur — the
spec's "exactly one space" is wrong, see the counterexample. -/
theorem c1_price_rule (ps : List Product) (i : Nat) (h : i < ps.length) :
    (((validate_products ps).getD i defaultVP).flags.invalid_or_missing_price =
        "Erreur" ↔
      ((ps.getD i defaultP).price = "MISSING" ∨
        ¬ AmendedPricePattern (ps.getD i defaultP).price)) := by
  obtain ⟨s, hs⟩ := validate_products_flags ps i h
  rw [hs]
  dsimp only
  rw [validateOne_invalid_price, errFlag_eq]
  generalize ps.getD i defaultP = p
  have hm := matchPriceValid_iff p.price
  by_cases hA : p.price = "MISSING"
  · simp [hA]
  · by_cases hP : AmendedPricePattern p.price
    · simp [hA, hP, hm.mpr hP]
    · have hfalse : matchPriceValid p.price.data = false := by
        rcases hb : matchPriceValid p.price.data with _ | _
        · rfl
        · exact absurd (hm.mp hb) hP
      simp [hA, hP, hfalse]

/-- Witness for C1: price `"5.00 EUR"` is not flagged. -/
theorem c1_price_rule_witness :
    ¬ (((validate_products [{price := "5.00 EUR"}]).getD 0
      defaultVP).flags.invalid_or_missing_price = "Erreur") := by
  intro hc
  rcases (c1_price_rule [{price := "5.00 EUR"}] 0 (by norm_num)).mp hc with h1 | h1
  · exact absurd h1 (by decide)
  · exact h1 ⟨['5'], ['.', '0', '0'], [' '], ['E', 'U', 'R'], [], by decide,
      by decide, by decide,
      Or.inr ⟨['0', '0'], rfl, by decide, Or.inr rfl⟩,
      Or.inr ⟨' ', rfl, by decide⟩, rfl, by decide, Or.inl rfl⟩

/-- Counterexample to C1 as stated: the price `"5EUR"` has no space
between amount and currency, so the spec's pattern rejects it and
the claim demands `Erreur`; the code's `\s?` makes the space
optional and flags it `OK`. -/
theorem c1_no_space_price_ok :
    ((validate_products [{price := "5EUR"}]).getD 0
      defaultVP).flags.invalid_or_missing_price = "OK" ∧
    ("5EUR" : String) ≠ "MISSING" ∧ ¬ SpecPricePattern "5EUR" := by
  refine ⟨by decide, by decide, ?_⟩
  rintro ⟨ds, fr, cur, heq, -⟩
  have hmem : (' ' : Char) ∈ "5EUR".data := by
    rw [heq]
    simp
  exact absurd hmem (by decide)

/-! ### C6: idempotence of `normalize_price` -/

theorem isDig_ne_comma {c : Char} (h : isDig c = true) : c ≠ ',' := by
  intro he
  rw [he] at h
  exact absurd h (by decide)

theorem isDig_ne_dot {c : Char} (h : isDig c = true) : c ≠ '.' := by
  intro he
  rw [he] at h
  exact absurd h (by decide)

theorem isDig_not_space {c : Char} (h : isDig c = true) :
    isPySpaceChar c = false := by
  rw [Bool.eq_false_iff]
  intro hd
  simp only [isDig, isPySpaceChar, Bool.and_eq_true, Bool.or_eq_true,
    decide_eq_true_eq] at h hd
  omega

theorem digitVal_digitChar {d : Nat} (h : d < 10) :
    digitVal (digitChar d) = d := by
  interval_cases d <;> decide

theorem isDig_digitChar {d : Nat} (h : d < 10) : isDig (digitChar d) = true := by
  interval_cases d <;> decide

theorem digitChar_eq_zero_iff {d : Nat} (h : d < 10) :
    (digitChar d = '0' ↔ d = 0) := by
  interval_cases d <;> simp <;> decide

theorem all_takeWhile (p : Char → Bool) (l : List Char)
    (h : ∀ c ∈ l, p c = true) :
    l.takeWhile p = l ∧ l.dropWhile p = [] := by
  induction l with
  | nil => simp
  | cons x l ih =>
    have hx := h x (by simp)
    have h2 := ih fun c hc => h c (by simp [hc])
    simp [List.takeWhile_cons, List.dropWhile_cons, hx, h2.1, h2.2]

theorem map_replace_digits (l : List Char) (h : ∀ c ∈ l, isDig c = true) :
    (l.map fun ch => if ch = ',' then '.' else ch) = l := by
  induction l with
  | nil => rfl
  | cons x l ih =>
    have hx : x ≠ ',' := isDig_ne_comma (h x (by simp))
    simp only [List.map_cons, if_neg hx]
    rw [ih fun c hc => h c (by simp [hc])]

theorem digitsToNat_append_digit (xs : List Char) (c : Char) :
    digitsToNat (xs ++ [c]) = 10 * digitsToNat xs + digitVal c := by
  simp [digitsToNat, List.foldl_append]

theorem natStrAux_spec : ∀ fuel n, n ≤ fuel →
    digitsToNat (natStrAux fuel n) = n ∧
    (∀ c ∈ natStrAux fuel n, isDig c = true) := by
  intro fuel
  induction fuel with
  | zero =>
    intro n hn
    simp only [Nat.le_zero] at hn
    subst hn
    exact ⟨rfl, by simp [natStrAux]⟩
  | succ fuel ih =>
    intro n hn
    by_cases h0 : n = 0
    · subst h0
      exact ⟨rfl, by simp [natStrAux]⟩
    · have hdiv : n / 10 ≤ fuel := by
        have := Nat.div_lt_self (Nat.pos_of_ne_zero h0) (by norm_num : 1 < 10)
        omega
      obtain ⟨ihv, ihd⟩ := ih (n / 10) hdiv
      constructor
      · rw [natStrAux, if_neg h0, digitsToNat_append_digit, ihv,
          digitVal_digitChar (Nat.mod_lt n (by norm_num))]
        omega
      · intro c hc
        rw [natStrAux, if_neg h0] at hc
        rcases List.mem_append.mp hc with h | h
        · exact ihd c h
        · simp only [List.mem_singleton] at h
          subst h
          exact isDig_digitChar (Nat.mod_lt n (by norm_num))

theorem digitsToNat_natStr (n : Nat) : digitsToNat (natStr n) = n := by
  unfold natStr
  split
  · rename_i h
    subst h
    rfl
  · exact (natStrAux_spec n n le_rfl).1

theorem natStr_digits (n : Nat) : ∀ c ∈ natStr n, isDig c = true := by
  unfold natStr
  split
  · intro c hc
    simp only [List.mem_singleton] at hc
    subst hc
    decide
  · exact (natStrAux_spec n n le_rfl).2

theorem natStr_ne_nil (n : Nat) : natStr n ≠ [] := by
  unfold natStr
  split
  · simp
  · rename_i h0
    intro he
    have hv := (natStrAux_spec n n le_rfl).1
    rw [he] at hv
    exact h0 (by simpa [digitsToNat] using hv.symm)

theorem natStr_cons (n : Nat) :
    ∃ h0 t, natStr n = h0 :: t ∧ isDig h0 = true := by
  rcases hh : natStr n with _ | ⟨h0, t⟩
  · exact absurd hh (natStr_ne_nil n)
  · exact ⟨h0, t, rfl, natStr_digits n h0 (by rw [hh]; simp)⟩

theorem matchFeedPriceTail_some {am rest a : List Char}
    {c : Option (List Char)} (h : matchFeedPriceTail am rest = some (a, c)) :
    a = am ∧ (c = none ∨ ∃ u v w, c = some [u, v, w] ∧
      isUp u = true ∧ isUp v = true ∧ isUp w = true) := by
  unfold matchFeedPriceTail at h
  split at h
  · rw [Option.some.injEq, Prod.mk.injEq] at h
    exact ⟨h.1.symm, Or.inl h.2.symm⟩
  · split at h
    · rename_i u v w r4 _
      split at h
      · rename_i hcond
        rw [Option.some.injEq, Prod.mk.injEq] at h
        simp only [Bool.and_eq_true] at hcond
        exact ⟨h.1.symm, Or.inr ⟨u, v, w, h.2.symm,
          hcond.1.1.1, hcond.1.1.2, hcond.1.2⟩⟩
      · exact absurd h (by simp)
    · exact absurd h (by simp)

theorem parseAmount_digits (d1 : List Char)
    (hd1 : ∀ c ∈ d1, isDig c = true) (hd1ne : d1 ≠ []) :
    parseAmount d1 = some (digitsToNat d1, 0) := by
  unfold parseAmount
  rw [(all_takeWhile isDig d1 hd1).2, (all_takeWhile isDig d1 hd1).1]
  simp [hd1ne]

theorem parseAmount_canon (d1 d2 : List Char)
    (hd1 : ∀ c ∈ d1, isDig c = true) (hd1ne : d1 ≠ [])
    (hd2 : ∀ c ∈ d2, isDig c = true) :
    parseAmount (d1 ++ '.' :: d2) =
      some (digitsToNat (d1 ++ d2), d2.length) := by
  have htk := takeWhile_append_of isDig d1 '.' d2 hd1 (by decide)
  unfold parseAmount
  rw [htk.2, htk.1]
  split
  · rename_i heq
    exact absurd heq (by simp)
  · rename_i r2' heq
    obtain rfl : d2 = r2' := (List.cons.inj heq).2
    rw [(all_takeWhile isDig d2 hd2).1, (all_takeWhile isDig d2 hd2).2]
    simp [hd1ne]
  · rename_i hne1 hne2
    exact absurd rfl (hne2 d2)

theorem matchFeedPrice_parts {cs a : List Char} {c : Option (List Char)}
    (h : matchFeedPrice cs = some (a, c)) :
    (∃ n k, parseAmount (a.map fun ch => if ch = ',' then '.' else ch) =
      some (n, k)) ∧
    (c = none ∨ ∃ u v w, c = some [u, v, w] ∧
      isUp u = true ∧ isUp v = true ∧ isUp w = true) := by
  unfold matchFeedPrice at h
  split at h
  · exact absurd h (by simp)
  · rename_i hne
    have hdig : ∀ x ∈ cs.takeWhile isDig, isDig x = true :=
      fun x hx => List.mem_takeWhile_imp hx
    have hnonempty : ¬ (cs.takeWhile isDig).isEmpty = true := hne
    have hd1ne : cs.takeWhile isDig ≠ [] := by
      simpa [List.isEmpty_iff] using hnonempty
    split at h
    · -- dropWhile = []: amount is the digit run
      rw [Option.some.injEq, Prod.mk.injEq] at h
      obtain ⟨ha, hc⟩ := h
      subst ha
      refine ⟨⟨digitsToNat (cs.takeWhile isDig), 0, ?_⟩, Or.inl hc.symm⟩
      rw [map_replace_digits _ hdig]
      exact parseAmount_digits _ hdig hd1ne
    · rename_i ch r2 hpat
      split at h
      · -- separator branch
        rename_i hsep
        obtain ⟨ha, hc⟩ := matchFeedPriceTail_some h
        subst ha
        refine ⟨?_, hc⟩
        have hd2 : ∀ x ∈ r2.takeWhile isDig, isDig x = true :=
          fun x hx => List.mem_takeWhile_imp hx
        have hrepl : ((cs.takeWhile isDig ++ ch :: r2.takeWhile isDig).map
            fun c => if c = ',' then '.' else c) =
            cs.takeWhile isDig ++ '.' :: r2.takeWhile isDig := by
          rw [List.map_append, map_replace_digits _ hdig, List.map_cons,
            map_replace_digits _ hd2]
          simp only [Bool.or_eq_true, decide_eq_true_eq] at hsep
          rcases hsep with rfl | rfl
          · rfl
          · rfl
        rw [hrepl]
        exact ⟨digitsToNat (cs.takeWhile isDig ++ r2.takeWhile isDig),
          (r2.takeWhile isDig).length, parseAmount_canon _ _ hdig hd1ne hd2⟩
      · -- no separator: amount is the digit run
        obtain ⟨ha, hc⟩ := matchFeedPriceTail_some h
        subst ha
        refine ⟨⟨digitsToNat (cs.takeWhile isDig), 0, ?_⟩, hc⟩
        rw [map_replace_digits _ hdig]
        exact parseAmount_digits _ hdig hd1ne

theorem pyStripList_noop (cs : List Char)
    (h1 : ∀ hd, cs.head? = some hd → isPySpaceChar hd = false)
    (h2 : ∀ lc, cs.getLast? = some lc → isPySpaceChar lc = false) :
    pyStripList cs = cs := by
  have hfwd : cs.dropWhile isPySpaceChar = cs := by
    cases cs with
    | nil => rfl
    | cons x t => rw [List.dropWhile_cons, if_neg (by simp [h1 x rfl])]
  have hbwd : cs.reverse.dropWhile isPySpaceChar = cs.reverse := by
    cases hrev : cs.reverse with
    | nil => rfl
    | cons x t =>
      rw [List.dropWhile_cons, if_neg ?_]
      have hx : cs.getLast? = some x := by
        rw [← List.head?_reverse, hrev]
        rfl
      simp [h2 x hx]
  unfold pyStripList
  rw [hfwd, hbwd, List.reverse_reverse]

theorem rev_natStr_dropdot (n : Nat) :
    (natStr n).reverse.dropWhile (· = '.') = (natStr n).reverse := by
  rcases hrevn : (natStr n).reverse with _ | ⟨x, tx⟩
  · rfl
  · rw [List.dropWhile_cons, if_neg ?_]
    have hx : x ∈ natStr n := by
      rw [← List.mem_reverse, hrevn]
      simp
    have hne := isDig_ne_dot (natStr_digits n x hx)
    simpa using hne

theorem fmt2f_strip (M : Nat) :
    (M % 100 = 0 ∧ pyRstripZeroDot (fmt2f M) = natStr (M / 100)) ∨
    (M % 10 = 0 ∧ M % 100 ≠ 0 ∧ pyRstripZeroDot (fmt2f M) =
      natStr (M / 100) ++ ['.', digitChar (M / 10 % 10)]) ∨
    (M % 10 ≠ 0 ∧ pyRstripZeroDot (fmt2f M) =
      natStr (M / 100) ++ ['.', digitChar (M / 10 % 10), digitChar (M % 10)]) := by
  have hrev : (fmt2f M).reverse =
      digitChar (M % 10) :: digitChar (M / 10 % 10) :: '.' ::
        (natStr (M / 100)).reverse := by
    simp [fmt2f, List.reverse_append]
  by_cases h0 : M % 10 = 0
  · by_cases h1 : M / 10 % 10 = 0
    · -- both fractional digits are 0: everything after the point falls
      left
      refine ⟨by omega, ?_⟩
      unfold pyRstripZeroDot
      rw [hrev, h0, h1]
      rw [List.dropWhile_cons, if_pos (by decide), List.dropWhile_cons,
        if_pos (by decide), List.dropWhile_cons, if_neg (by decide),
        List.dropWhile_cons, if_pos (by decide), rev_natStr_dropdot,
        List.reverse_reverse]
    · -- last digit 0, second-to-last kept
      right; left
      refine ⟨h0, by omega, ?_⟩
      have hc1 : ¬ digitChar (M / 10 % 10) = '0' := fun he =>
        h1 ((digitChar_eq_zero_iff (Nat.mod_lt _ (by norm_num))).mp he)
      have hc1d : isDig (digitChar (M / 10 % 10)) = true :=
        isDig_digitChar (Nat.mod_lt _ (by norm_num))
      unfold pyRstripZeroDot
      rw [hrev, h0]
      rw [List.dropWhile_cons, if_pos (by decide), List.dropWhile_cons,
        if_neg (by simpa using hc1), List.dropWhile_cons,
        if_neg (by simpa using isDig_ne_dot hc1d)]
      simp [List.append_assoc]
  · -- last digit nonzero: nothing falls
    right; right
    refine ⟨h0, ?_⟩
    have hc0 : ¬ digitChar (M % 10) = '0' := fun he =>
      h0 ((digitChar_eq_zero_iff (Nat.mod_lt _ (by norm_num))).mp he)
    have hc0d : isDig (digitChar (M % 10)) = true :=
      isDig_digitChar (Nat.mod_lt _ (by norm_num))
    unfold pyRstripZeroDot
    rw [hrev]
    rw [List.dropWhile_cons, if_neg (by simpa using hc0),
      List.dropWhile_cons, if_neg (by simpa using isDig_ne_dot hc0d)]
    simp [List.append_assoc]

theorem matchFeedPriceTail_canonical (A : List Char) (u v w : Char)
    (hu : isUp u = true) (hv : isUp v = true) (hw : isUp w = true) :
    matchFeedPriceTail A (' ' :: [u, v, w]) = some (A, some [u, v, w]) := by
  unfold matchFeedPriceTail
  rw [if_neg (by simp [endOrNl])]
  rw [List.dropWhile_cons, if_pos (by decide), List.dropWhile_cons,
    if_neg (by simp [isUp_not_space hu])]
  split
  · rename_i a b c r4 heq
    obtain ⟨rfl, h2⟩ := List.cons.inj heq
    obtain ⟨rfl, h3⟩ := List.cons.inj h2
    obtain ⟨rfl, rfl⟩ := List.cons.inj h3
    rw [if_pos (by simp [hu, hv, hw, endOrNl])]
  · rename_i hne
    exact absurd rfl (hne u v w [])

theorem matchFeedPrice_canonical (ip : Nat) (fr : List Char)
    (hfr : fr = [] ∨ ∃ fds, fr = '.' :: fds ∧ (∀ x ∈ fds, isDig x = true))
    (u v w : Char) (hu : isUp u = true) (hv : isUp v = true)
    (hw : isUp w = true) :
    matchFeedPrice ((natStr ip ++ fr) ++ ' ' :: [u, v, w]) =
      some (natStr ip ++ fr, some [u, v, w]) := by
  have hdig := natStr_digits ip
  have hne := natStr_ne_nil ip
  rcases hfr with rfl | ⟨fds, rfl, hfds⟩
  · have htk := takeWhile_append_of isDig (natStr ip) ' ' [u, v, w] hdig
      (by decide)
    simp only [List.append_nil]
    unfold matchFeedPrice
    rw [htk.1, htk.2, if_neg (by simpa using hne)]
    split
    · rename_i heq
      exact absurd heq (by simp)
    · rename_i ch r2 heq
      obtain ⟨rfl, rfl⟩ := List.cons.inj heq
      rw [if_neg (by decide)]
      exact matchFeedPriceTail_canonical _ u v w hu hv hw
  · have hshape : (natStr ip ++ '.' :: fds) ++ ' ' :: [u, v, w] =
        natStr ip ++ '.' :: (fds ++ ' ' :: [u, v, w]) := by
      simp [List.append_assoc]
    have htk := takeWhile_append_of isDig (natStr ip) '.'
      (fds ++ ' ' :: [u, v, w]) hdig (by decide)
    have htk2 := takeWhile_append_of isDig fds ' ' [u, v, w] hfds (by decide)
    rw [hshape]
    unfold matchFeedPrice
    rw [htk.1, htk.2, if_neg (by simpa using hne)]
    split
    · rename_i heq
      exact absurd heq (by simp)
    · rename_i ch r2 heq
      obtain ⟨rfl, rfl⟩ := List.cons.inj heq
      rw [if_pos (by decide), htk2.1, htk2.2]
      exact matchFeedPriceTail_canonical _ u v w hu hv hw

theorem reparse_canonical (M : Nat) :
    ∃ n2 k2, parseAmount ((pyRstripZeroDot (fmt2f M)).map
      fun ch => if ch = ',' then '.' else ch) = some (n2, k2) ∧
      scaleTo2 n2 k2 = M := by
  have hq10 : M / 10 % 10 < 10 := Nat.mod_lt _ (by norm_num)
  have h010 : M % 10 < 10 := Nat.mod_lt _ (by norm_num)
  rcases fmt2f_strip M with ⟨hM, hA⟩ | ⟨h10, h100, hA⟩ | ⟨h10, hA⟩
  · refine ⟨M / 100, 0, ?_, ?_⟩
    · rw [hA, map_replace_digits _ (natStr_digits _),
        parseAmount_digits _ (natStr_digits _) (natStr_ne_nil _),
        digitsToNat_natStr]
    · unfold scaleTo2
      rw [if_pos (by norm_num)]
      omega
  · refine ⟨10 * (M / 100) + M / 10 % 10, 1, ?_, ?_⟩
    · have hd2 : ∀ x ∈ [digitChar (M / 10 % 10)], isDig x = true := by
        intro x hx
        simp only [List.mem_singleton] at hx
        subst hx
        exact isDig_digitChar hq10
      rw [hA, show natStr (M / 100) ++ ['.', digitChar (M / 10 % 10)] =
          natStr (M / 100) ++ '.' :: [digitChar (M / 10 % 10)] from rfl]
      rw [List.map_append, map_replace_digits _ (natStr_digits _),
        List.map_cons, if_neg (by decide), map_replace_digits _ hd2]
      rw [parseAmount_canon _ _ (natStr_digits _) (natStr_ne_nil _) hd2]
      rw [digitsToNat_append_digit, digitsToNat_natStr,
        digitVal_digitChar hq10]
      rfl
    · unfold scaleTo2
      rw [if_pos (by norm_num)]
      have : 10 ^ (2 - 1) = 10 := by norm_num
      rw [this]
      omega
  · refine ⟨100 * (M / 100) + 10 * (M / 10 % 10) + M % 10, 2, ?_, ?_⟩
    · have hd2 : ∀ x ∈ [digitChar (M / 10 % 10), digitChar (M % 10)],
          isDig x = true := by
        intro x hx
        simp only [List.mem_cons, List.not_mem_nil, or_false] at hx
        rcases hx with rfl | rfl
        · exact isDig_digitChar hq10
        · exact isDig_digitChar h010
      rw [hA, show natStr (M / 100) ++
          ['.', digitChar (M / 10 % 10), digitChar (M % 10)] =
          natStr (M / 100) ++
            '.' :: [digitChar (M / 10 % 10), digitChar (M % 10)] from rfl]
      rw [List.map_append, map_replace_digits _ (natStr_digits _),
        List.map_cons, if_neg (by decide), map_replace_digits _ hd2]
      rw [parseAmount_canon _ _ (natStr_digits _) (natStr_ne_nil _) hd2]
      rw [show natStr (M / 100) ++ [digitChar (M / 10 % 10), digitChar (M % 10)] =
        (natStr (M / 100) ++ [digitChar (M / 10 % 10)]) ++ [digitChar (M % 10)]
        from by simp]
      rw [digitsToNat_append_digit, digitsToNat_append_digit,
        digitsToNat_natStr, digitVal_digitChar hq10, digitVal_digitChar h010]
      refine congrArg (fun z => some (z, 2)) ?_
      ring
    · unfold scaleTo2
      rw [if_pos (by norm_num)]
      have : 10 ^ (2 - 2) = 1 := by norm_num
      rw [this]
      omega

theorem mk_head_digit_ne (h0 : Char) (t : List Char) (hd : isDig h0 = true) :
    (⟨h0 :: t⟩ : String) ≠ "" ∧ (⟨h0 :: t⟩ : String) ≠ "MISSING" := by
  constructor
  · intro he
    have h2 : h0 :: t = ("" : String).data := congrArg String.data he
    rw [show ("" : String).data = [] from rfl] at h2
    exact absurd h2 (by simp)
  · intro he
    have h2 : h0 :: t = ("MISSING" : String).data := congrArg String.data he
    rw [show ("MISSING" : String).data = ['M', 'I', 'S', 'S', 'I', 'N', 'G']
      from rfl] at h2
    have h3 : h0 = 'M' := (List.cons.inj h2).1
    rw [h3] at hd
    exact absurd hd (by decide)

theorem normalize_price_eval {raw : String} {a : List Char}
    {c : Option (List Char)} {n k : Nat}
    (h1 : ¬ raw = "") (h2 : ¬ raw = "MISSING")
    (hm : matchFeedPrice (pyStrip raw).data = some (a, c))
    (hp : parseAmount (a.map fun ch => if ch = ',' then '.' else ch) =
      some (n, k)) :
    normalize_price raw =
      pyStrip ⟨pyRstripZeroDot (fmt2f (scaleTo2 n k)) ++
        ' ' :: c.getD "EUR".data⟩ := by
  unfold normalize_price
  rw [if_neg (by simp [h1, h2])]
  split
  · rename_i heq
    rw [hm] at heq
    exact absurd heq (by simp)
  · rename_i a' c' heq
    rw [hm, Option.some.injEq, Prod.mk.injEq] at heq
    obtain ⟨rfl, rfl⟩ := heq
    split
    · rename_i heq2
      rw [hp] at heq2
      exact absurd heq2 (by simp)
    · rename_i n' k' heq2
      rw [hp, Option.some.injEq, Prod.mk.injEq] at heq2
      obtain ⟨rfl, rfl⟩ := heq2
      rfl

/-- C6: `normalize_price` is idempotent on valid price strings: when
the input is neither empty nor the sentinel and its stripped form
matches the price regex (one or more digits, an optional separator
with further digits, then optionally whitespace and a three-letter
currency code), re-normalizing the output returns it unchanged. -/
theorem c6_normalize_price_idempotent (raw : String)
    (h1 : ¬ raw = "") (h2 : ¬ raw = "MISSING")
    (h3 : (matchFeedPrice (pyStrip raw).data).isSome = true) :
    normalize_price (normalize_price raw) = normalize_price raw := by
  rcases hm : matchFeedPrice (pyStrip raw).data with _ | ⟨a, c⟩
  · rw [hm] at h3
    exact absurd h3 (by simp)
  obtain ⟨⟨n, k, hpa⟩, hcur⟩ := matchFeedPrice_parts hm
  have hval := normalize_price_eval h1 h2 hm hpa
  generalize scaleTo2 n k = M at hval
  obtain ⟨u, v, w, hcgd, hu, hv, hw⟩ :
      ∃ u v w, c.getD "EUR".data = [u, v, w] ∧
        isUp u = true ∧ isUp v = true ∧ isUp w = true := by
    rcases hcur with rfl | ⟨u, v, w, rfl, hu, hv, hw⟩
    · exact ⟨'E', 'U', 'R', rfl, by decide, by decide, by decide⟩
    · exact ⟨u, v, w, rfl, hu, hv, hw⟩
  rw [hcgd] at hval
  obtain ⟨fr, hAeq, hfr⟩ :
      ∃ fr, pyRstripZeroDot (fmt2f M) = natStr (M / 100) ++ fr ∧
        (fr = [] ∨ ∃ fds, fr = '.' :: fds ∧ ∀ x ∈ fds, isDig x = true) := by
    rcases fmt2f_strip M with ⟨_, hA⟩ | ⟨_, _, hA⟩ | ⟨_, hA⟩
    · exact ⟨[], by simpa using hA, Or.inl rfl⟩
    · refine ⟨['.', digitChar (M / 10 % 10)], hA,
        Or.inr ⟨[digitChar (M / 10 % 10)], rfl, ?_⟩⟩
      intro x hx
      simp only [List.mem_singleton] at hx
      subst hx
      exact isDig_digitChar (Nat.mod_lt _ (by norm_num))
    · refine ⟨['.', digitChar (M / 10 % 10), digitChar (M % 10)], hA,
        Or.inr ⟨[digitChar (M / 10 % 10), digitChar (M % 10)], rfl, ?_⟩⟩
      intro x hx
      simp only [List.mem_cons, List.not_mem_nil, or_false] at hx
      rcases hx with rfl | rfl
      · exact isDig_digitChar (Nat.mod_lt _ (by norm_num))
      · exact isDig_digitChar (Nat.mod_lt _ (by norm_num))
  obtain ⟨h0, t0, hns, h0d⟩ := natStr_cons (M / 100)
  have hlist : pyRstripZeroDot (fmt2f M) ++ ' ' :: [u, v, w] =
      h0 :: (t0 ++ fr ++ ' ' :: [u, v, w]) := by
    rw [hAeq, hns]
    simp [List.append_assoc]
  have hstrip : pyStripList (pyRstripZeroDot (fmt2f M) ++
      ' ' :: [u, v, w]) = pyRstripZeroDot (fmt2f M) ++ ' ' :: [u, v, w] := by
    apply pyStripList_noop
    · intro hd hhd
      rw [hlist] at hhd
      simp only [List.head?_cons, Option.some.injEq] at hhd
      subst hhd
      exact isDig_not_space h0d
    · intro lc hlc
      have hconc : pyRstripZeroDot (fmt2f M) ++ ' ' :: [u, v, w] =
          (pyRstripZeroDot (fmt2f M) ++ [' ', u, v]) ++ [w] := by
        simp
      rw [hconc, List.getLast?_concat, Option.some.injEq] at hlc
      subst hlc
      exact isUp_not_space hw
  have hsval : normalize_price raw =
      ⟨pyRstripZeroDot (fmt2f M) ++ ' ' :: [u, v, w]⟩ := by
    rw [hval]
    exact congrArg String.mk hstrip
  have hmkne := mk_head_digit_ne h0 (t0 ++ fr ++ ' ' :: [u, v, w]) h0d
  have hmkeq :
      (⟨pyRstripZeroDot (fmt2f M) ++ ' ' :: [u, v, w]⟩ : String) =
        ⟨h0 :: (t0 ++ fr ++ ' ' :: [u, v, w])⟩ := congrArg String.mk hlist
  have hne1 :
      ¬ (⟨pyRstripZeroDot (fmt2f M) ++ ' ' :: [u, v, w]⟩ : String) = "" := by
    rw [hmkeq]
    exact hmkne.1
  have hne2 : ¬ (⟨pyRstripZeroDot (fmt2f M) ++ ' ' :: [u, v, w]⟩ : String) =
      "MISSING" := by
    rw [hmkeq]
    exact hmkne.2
  have hdata : (pyStrip (⟨pyRstripZeroDot (fmt2f M) ++
      ' ' :: [u, v, w]⟩ : String)).data =
      pyRstripZeroDot (fmt2f M) ++ ' ' :: [u, v, w] := hstrip
  have hm2 : matchFeedPrice (pyStrip (⟨pyRstripZeroDot (fmt2f M) ++
      ' ' :: [u, v, w]⟩ : String)).data =
      some (pyRstripZeroDot (fmt2f M), some [u, v, w]) := by
    rw [hdata, hAeq]
    exact matchFeedPrice_canonical (M / 100) fr hfr u v w hu hv hw
  obtain ⟨n2, k2, hpa2, hM2⟩ := reparse_canonical M
  have hsecond := normalize_price_eval hne1 hne2 hm2 hpa2
  rw [hM2] at hsecond
  have hgetd : (some [u, v, w] : Option (List Char)).getD "EUR".data =
      [u, v, w] := rfl
  rw [hgetd] at hsecond
  rw [hsval, hsecond]
  exact congrArg String.mk hstrip

theorem c6_normalize_price_idempotent_witness :
    (matchFeedPrice (pyStrip "12,5 EUR").data).isSome = true ∧
      normalize_price (normalize_price "12,5 EUR") =
        normalize_price "12,5 EUR" :=
  ⟨by decide, c6_normalize_price_idempotent "12,5 EUR"
    (by decide) (by decide) (by decide)⟩

end Audit
